import Mathlib

/-!
Verification of the C graph library `src/lib/full_graph_lib.c` (with types from
`src/lib/headers/graph.h`) against its natural-language specification.

Shallow embedding conventions:
* `id_t` (C `unsigned int`) is modelled as `Nat`.  Every identifier produced by the
  library is obtained by incrementing a counter starting at 1 or by recycling a
  previously issued identifier, so no behaviour relevant to the claims depends on
  32-bit wraparound; wraparound would require 2^32 allocations.
* The process-wide mutable allocator state (`global_node_id`, `global_edge_id`,
  `revoked_node_ids`, `revoked_edge_ids`, graph.h lines 151-159) is made explicit as a
  record `AllocState` threaded through every function that reads or writes it.
* Linked lists (`graph_t`, `graph_edge_list_t`, `id_list_t`) are modelled as Lean
  lists; a NULL pointer is the empty list; functions returning a possibly NULL
  pointer into a structure return an `Option`.
* `malloc` failures (which the C code only reports by printing) are not modelled:
  every allocation is assumed to succeed, matching the code's main path.
* C string labels are `String`; `create_new_edge`'s byte-for-byte label copy is
  modelled as carrying the same string value.
-/

/-- Edge record, from `graph_edge_t` (graph.h lines 107-116).  `src`/`dst` are
`endpoint_ids[0]`/`endpoint_ids[1]`.  The Dijkstra-only field `is_in_mst` plays no
role in any modelled operation and is omitted. -/
structure graph_edge where
  id : Nat
  weight : Int
  label : String
  src : Nat
  dst : Nat
deriving Repr, DecidableEq

instance : Inhabited graph_edge := ⟨⟨0, 0, "", 0, 0⟩⟩

/-- Node record, from `graph_node_t` (graph.h lines 129-139).  The Dijkstra-only
fields `dist`, `prev_eid`, `prev_nid` play no role in any modelled operation and are
omitted. -/
structure graph_node where
  id : Nat
  label : String
  edges : List graph_edge
deriving Repr, DecidableEq

instance : Inhabited graph_node := ⟨⟨0, "", []⟩⟩

/-- A graph (`graph_t`, graph.h lines 143-148) is a linked list of nodes. -/
abbrev Graph := List graph_node

/-- The process-wide allocator state: the two global counters and the two revoked-id
FIFO lists (graph.h lines 151-159; initialised at full_graph_lib.c lines 141-144 to
counter 1 and empty lists). -/
structure AllocState where
  global_node_id : Nat
  global_edge_id : Nat
  revoked_node_ids : List Nat
  revoked_edge_ids : List Nat
deriving Repr, DecidableEq

/-- The allocator state at program start (full_graph_lib.c lines 141-144). -/
def initAllocState : AllocState := ⟨1, 1, [], []⟩

/-- `append_revoked_id` (lines 2153-2182): appends the id at the tail of the list. -/
def append_revoked_id (list : List Nat) (id : Nat) : List Nat := list ++ [id]

/-- `find_revoked_id` (lines 2271-2287): linear scan. -/
def find_revoked_id (list : List Nat) (id : Nat) : Bool := list.contains id

/-- `pop_front_revoked_id` (lines 2246-2264): removes and returns the head of the
list; on an empty list stores `ERROR_ID` (0). -/
def pop_front_revoked_id : List Nat → List Nat × Nat
  | [] => ([], 0)
  | h :: t => (t, h)

/-- `set_node_id` (lines 1355-1358): returns the current counter value and
post-increments it. -/
def set_node_id (st : AllocState) : Nat × AllocState :=
  (st.global_node_id, { st with global_node_id := st.global_node_id + 1 })

/-- `set_edge_id` (lines 1365-1368). -/
def set_edge_id (st : AllocState) : Nat × AllocState :=
  (st.global_edge_id, { st with global_edge_id := st.global_edge_id + 1 })

/-- `create_new_node` (lines 991-1009): a fresh node with no edges, whose id is
popped from the front of the revoked-node list when that list is non-empty, and is
the next counter value otherwise. -/
def create_new_node (label : String) (st : AllocState) : graph_node × AllocState :=
  match st.revoked_node_ids with
  | h :: t => (⟨h, label, []⟩, { st with revoked_node_ids := t })
  | [] =>
      let (i, st') := set_node_id st
      (⟨i, label, []⟩, st')

/-- `create_new_edge` (lines 1019-1058): a fresh edge with the given weight, label
and endpoints, whose id is popped from the front of the revoked-edge list when that
list is non-empty, and is the next counter value otherwise. -/
def create_new_edge (weight : Int) (label : String) (ep0 ep1 : Nat) (st : AllocState) :
    graph_edge × AllocState :=
  match st.revoked_edge_ids with
  | h :: t => (⟨h, weight, label, ep0, ep1⟩, { st with revoked_edge_ids := t })
  | [] =>
      let (i, st') := set_edge_id st
      (⟨i, weight, label, ep0, ep1⟩, st')

/-- `push_node` (lines 1796-1816): prepends the node, but only when the graph is
already non-empty — the `if (graph)` guard makes a push onto the empty graph a
silent no-op. -/
def push_node (graph : Graph) (node : graph_node) : Graph :=
  match graph with
  | [] => []
  | _ => node :: graph

/-- `append_node` (lines 1823-1852): appends the node at the tail (and, unlike
`push_node`, does create a one-element list from the empty graph). -/
def append_node (graph : Graph) (node : graph_node) : Graph := graph ++ [node]

/-- `find_node` (lines 1931-1944): first node with the given id.  The C function
returns the `graph_t*` cell pointer (NULL when absent); every caller only compares
it against NULL or reads the node, so the embedding returns the node itself. -/
def find_node (graph : Graph) (id : Nat) : Option graph_node :=
  graph.find? (fun n => n.id == id)

/-- `get_node_from_id` (lines 1153-1166): same scan as `find_node`.  The C function
returns `&(ptr->node)` even when `ptr` is NULL; since `node` is the first member of
`graph_t` this yields the null pointer, which callers test — modelled as `none`. -/
def get_node_from_id (graph : Graph) (id : Nat) : Option graph_node :=
  graph.find? (fun n => n.id == id)

/-- `delete_node` (lines 1859-1894): unlinks the first node with the given id and
appends that id to the revoked-node list; no-op when no node matches.  The deleted
node's edge ids are **not** revoked. -/
def delete_node (graph : Graph) (id : Nat) (st : AllocState) : Graph × AllocState :=
  match graph with
  | [] => ([], st)
  | n :: t =>
      if n.id == id then
        (t, { st with revoked_node_ids := append_revoked_id st.revoked_node_ids id })
      else
        let (t', st') := delete_node t id st
        (n :: t', st')

/-- `delete_graph` (lines 1900-1924): tears the whole graph down, appending every
node id to the revoked-node list and every owned edge id to the revoked-edge list,
in traversal order; returns the empty graph. -/
def delete_graph (graph : Graph) (st : AllocState) : Graph × AllocState :=
  match graph with
  | [] => ([], st)
  | n :: t =>
      delete_graph t
        { st with
          revoked_node_ids := append_revoked_id st.revoked_node_ids n.id,
          revoked_edge_ids := (n.edges.map (·.id)).foldl append_revoked_id st.revoked_edge_ids }

/-- `push_edge` (lines 1977-1997): prepends the edge, but only when the list is
already non-empty — the `if (edges)` guard makes a push onto an empty collection a
silent no-op. -/
def push_edge (edges : List graph_edge) (edge : graph_edge) : List graph_edge :=
  match edges with
  | [] => []
  | _ => edge :: edges

/-- `append_edge` (lines 2004-2033): appends the edge at the tail (and does create a
one-element list from the empty list). -/
def append_edge (edges : List graph_edge) (edge : graph_edge) : List graph_edge :=
  edges ++ [edge]

/-- `find_edge` (lines 2107-2120). -/
def find_edge (edges : List graph_edge) (id : Nat) : Option graph_edge :=
  edges.find? (fun e => e.id == id)

/-- `exists_node_from_id` (lines 1585-1610): true iff the id is `<=` the *current
counter value* (note: the counter is the next id to be issued, one above the highest
issued so far) and the id is not in the revoked-node list. -/
def exists_node_from_id (st : AllocState) (node_id : Nat) : Bool :=
  if node_id ≤ st.global_node_id then !(find_revoked_id st.revoked_node_ids node_id)
  else false

/-- `exists_edge_from_id` (lines 1617-1642): edge-namespace twin of
`exists_node_from_id`. -/
def exists_edge_from_id (st : AllocState) (edge_id : Nat) : Bool :=
  if edge_id ≤ st.global_edge_id then !(find_revoked_id st.revoked_edge_ids edge_id)
  else false

/-- Helper for `delete_edge`: unlink the first edge with the given id. -/
def remove_first_edge : List graph_edge → Nat → List graph_edge
  | [], _ => []
  | e :: t, id => if e.id == id then t else e :: remove_first_edge t id

/-- `delete_edge` (lines 2040-2075): guarded by `edges && exists_edge_from_id(id)`;
when the id is found, the first matching edge is unlinked and its id appended to the
revoked-edge list; otherwise the list is returned unchanged. -/
def delete_edge (edges : List graph_edge) (id : Nat) (st : AllocState) :
    List graph_edge × AllocState :=
  if edges.isEmpty || !(exists_edge_from_id st id) then (edges, st)
  else if (find_edge edges id).isSome then
    (remove_first_edge edges id,
     { st with revoked_edge_ids := append_revoked_id st.revoked_edge_ids id })
  else (edges, st)

/-- `delete_edge_list` (lines 2081-2100): frees the whole list, appending every edge
id to the revoked-edge list in order. -/
def delete_edge_list (edges : List graph_edge) (st : AllocState) :
    List graph_edge × AllocState :=
  match edges with
  | [] => ([], st)
  | e :: t =>
      delete_edge_list t
        { st with revoked_edge_ids := append_revoked_id st.revoked_edge_ids e.id }

/-- `delete_edge_from_node` (lines 1337-1348): finds the first node with the given
node id and applies `delete_edge` to its edge list. -/
def delete_edge_from_node (graph : Graph) (node_id edge_id : Nat) (st : AllocState) :
    Graph × AllocState :=
  match graph with
  | [] => ([], st)
  | n :: t =>
      if n.id == node_id then
        let (es', st') := delete_edge n.edges edge_id st
        ({ n with edges := es' } :: t, st')
      else
        let (t', st') := delete_edge_from_node t node_id edge_id st
        (n :: t', st')

/-- `graph_dim` (lines 1407-1423): number of nodes. -/
def graph_dim (graph : Graph) : Nat := graph.length

/-- `edge_list_dim` (lines 1448-1462): length of an edge list. -/
def edge_list_dim (edges : List graph_edge) : Nat := edges.length

/-- `autoloop_count` (lines 1560-1578): number of self-loops in an edge list. -/
def autoloop_count (edges : List graph_edge) : Nat :=
  (edges.filter (fun e => e.src == e.dst)).length

/-- `create_graph_matrix` (lines 1487-1552): the dense boolean adjacency matrix in
graph insertion order; cell (i, j) is set iff the node at position i owns an edge
whose destination id equals the id of the node at position j.  The C code stores the
ints 1/0; the embedding uses `Bool`. -/
def create_graph_matrix (graph : Graph) : List (List Bool) :=
  graph.map (fun r => graph.map (fun c => r.edges.any (fun e => e.dst == c.id)))

/-- Replace the first node with the given id via `f` (no-op when absent): the
pattern with which the C code mutates a node found by `get_node_from_id`. -/
def update_first_node (graph : Graph) (id : Nat) (f : graph_node → graph_node) : Graph :=
  match graph with
  | [] => []
  | n :: t => if n.id == id then f n :: t else n :: update_first_node t id f

/-- Endpoint rewrite applied to every cell of the merged edge list in
`vertex_contraction` (lines 2382-2395): an edge not already sourced at the survivor
is re-sourced there, and a donor self-loop becomes a survivor self-loop. -/
def contraction_rewrite (first_node_id : Nat) (e : graph_edge) : graph_edge :=
  if e.src == first_node_id then e
  else if e.src == e.dst then { e with src := first_node_id, dst := first_node_id }
  else { e with src := first_node_id }

/-- `vertex_contraction` (lines 2330-2439), contracting the node with
`second_node_id` (the donor) into the node with `first_node_id` (the survivor).

Steps, as in the source: (1) lines 2343-2353 delete the first survivor edge whose
destination is the donor; (2) lines 2356-2366 delete the first donor edge whose
destination is the survivor; (3) lines 2373-2395 append value copies of the donor's
remaining edges to the list reached from the local `ptr2 = merge_node->edges` and
rewrite endpoints over that list — when the survivor's list is empty at that point,
`append_edge` builds a fresh list that only ever lives in the local variable, so the
merged list never reaches the survivor and the donor's edges are silently dropped;
(4) lines 2405-2428 redirect, in every node except the donor, every edge aimed at
the donor; (5) line 2431 deletes the donor node, revoking its id.

When the two ids are equal, step (3) of the C code appends a list to itself while
traversing it and does not terminate; the embedding is total and no theorem below
instantiates that case. -/
def vertex_contraction (graph : Graph) (first_node_id second_node_id : Nat)
    (st : AllocState) : Graph × AllocState :=
  match get_node_from_id graph first_node_id, get_node_from_id graph second_node_id with
  | some merge_node, some donor_node =>
      let (g1, st1) :=
        match merge_node.edges.find? (fun e => e.dst == second_node_id) with
        | some e => delete_edge_from_node graph first_node_id e.id st
        | none => (graph, st)
      let donor1 := (get_node_from_id g1 second_node_id).getD donor_node
      let (g2, st2) :=
        match donor1.edges.find? (fun e => e.dst == first_node_id) with
        | some e => delete_edge_from_node g1 second_node_id e.id st1
        | none => (g1, st1)
      let merge2 := (get_node_from_id g2 first_node_id).getD merge_node
      let donor2 := (get_node_from_id g2 second_node_id).getD donor_node
      let g3 :=
        if merge2.edges.isEmpty then g2
        else update_first_node g2 first_node_id (fun n =>
          { n with edges := (n.edges ++ donor2.edges).map (contraction_rewrite first_node_id) })
      let g4 := g3.map (fun n =>
        if n.id == second_node_id then n
        else { n with edges := n.edges.map (fun e =>
          if e.dst == second_node_id then { e with dst := first_node_id } else e) })
      delete_node g4 second_node_id st2
  | _, _ => (graph, st)

/-- `disjoint_graph_union` (lines 2560-2580): all nodes of `graph1` followed by all
nodes of `graph2`.  The C code copies the node structs by value into fresh list
cells, so the union shares the edge lists with the originals; the embedding's list
values carry the same edge lists. -/
def disjoint_graph_union (graph1 graph2 : Graph) : Graph := graph1 ++ graph2

/-- Template construction of `complement_graph` (lines 2491-2509): one candidate
edge per node of the graph (the node itself included), with the fixed default
weight `COMPLEMENTED_EDGE_DEFAULT_WEIGHT = 0` and label `"complemented_edge"`,
appended in graph order.  Only node ids are read from the graph. -/
def complement_template (node_ids : List Nat) (src : Nat) (st : AllocState) :
    List graph_edge × AllocState :=
  node_ids.foldl
    (fun acc dst =>
      let (e, st') := create_new_edge 0 "complemented_edge" src dst acc.2
      (append_edge acc.1 e, st'))
    ([], st)

/-- One scan of the template-filtering loop of `complement_graph` (lines 2518-2536)
for a single pre-existing edge `e`: the C inner loop visits the cells of the
template as it stood at the start of the scan (unlinking a cell never affects the
cells still ahead of the cursor) and, on an endpoint-pair match, deletes that cell
from the current template by its edge id (line 2529, via `delete_edge`). -/
def complement_filter_step (e : graph_edge) (tpl : List graph_edge) (st : AllocState) :
    List graph_edge × AllocState :=
  tpl.foldl
    (fun acc c =>
      if e.src == c.src && e.dst == c.dst then delete_edge acc.1 c.id acc.2
      else acc)
    (tpl, st)

/-- Per-node body of `complement_graph` (lines 2484-2545): build the template,
filter out every endpoint pair already realised by an existing edge, revoke the
node's old edge ids (`delete_edge_list`, line 2542) and install the filtered
template. -/
def complement_node (node_ids : List Nat) (n : graph_node) (st : AllocState) :
    graph_node × AllocState :=
  let (tpl, st1) := complement_template node_ids n.id st
  let (tpl2, st2) :=
    n.edges.foldl (fun acc e => complement_filter_step e acc.1 acc.2) (tpl, st1)
  let (_, st3) := delete_edge_list n.edges st2
  ({ n with edges := tpl2 }, st3)

/-- `complement_graph` (lines 2475-2549): rewrites every node's edge list in place,
in graph order.  The template loop walks the current graph but reads only node ids
from it, and no rewrite changes a node id, so the id sequence seen by every
template equals that of the input graph. -/
def complement_graph (graph : Graph) (st : AllocState) : Graph × AllocState :=
  let node_ids := graph.map (·.id)
  graph.foldl
    (fun acc n =>
      let (n', st') := complement_node node_ids n acc.2
      (acc.1 ++ [n'], st'))
    ([], st)

/-- The edge metadata lookup of `create_graph_copy` (lines 1117-1124): the C code
walks the source node's edge list to position `j` (the *column* index of the matrix
cell), stopping early at the last cell — so weight and label are taken from the
`j`-th edge of the row node's list, clamped to its length, not from the edge that
produced the matrix entry.  A set matrix cell implies the row node owns at least
one edge, so the `default` of the empty case is never read on the paths used. -/
def copy_source_edge (edges : List graph_edge) (j : Nat) : graph_edge :=
  edges.getD (min j (edges.length - 1)) default

/-- `create_graph_copy` (lines 1065-1146): a structural copy — fresh
allocator-minted nodes in the same order with the same labels, then one fresh edge
per set cell of the source graph's adjacency matrix, endpoints translated to the
new ids (by position) and metadata from `copy_source_edge`. -/
def create_graph_copy (old_graph : Graph) (st : AllocState) : Graph × AllocState :=
  match old_graph with
  | [] => ([], st)
  | _ =>
      let mat := create_graph_matrix old_graph
      let (news, st1) := old_graph.foldl
        (fun acc onode =>
          let (n, st') := create_new_node onode.label acc.2
          (append_node acc.1 n, st'))
        (([] : Graph), st)
      let new_ids : List Nat := news.map (·.id)
      news.enum.foldl
        (fun acc pr =>
          let i := pr.1
          let n := pr.2
          let row := mat.getD i []
          let old_n := old_graph.getD i default
          let (es, st') := row.enum.foldl
            (fun acc2 pc =>
              if pc.2 then
                let oe := copy_source_edge old_n.edges pc.1
                let (e, st2) :=
                  create_new_edge oe.weight oe.label n.id (new_ids.getD pc.1 0) acc2.2
                (append_edge acc2.1 e, st2)
              else acc2)
            (([] : List graph_edge), acc.2)
          (append_node acc.1 { n with edges := es }, st'))
        (([] : Graph), st1)

/-- Replace the element at position `i` (no-op when out of range). -/
def list_update_at {α : Type} (l : List α) (i : Nat) (f : α → α) : List α :=
  match l, i with
  | [], _ => []
  | x :: t, 0 => f x :: t
  | x :: t, Nat.succ k => x :: list_update_at t k f

/-- Append one product edge to row `i` of layer `j`: the C statement at lines
2678-2685 appends to `(*(layers + j))->node.edges`, i.e. to the layer's own node
struct (the layer cursor stands at row `i` during iteration `i`). -/
def cartesian_add_edge (layers : List Graph) (j i : Nat) (e : graph_edge) :
    List Graph :=
  list_update_at layers j (fun layer =>
    list_update_at layer i (fun n => { n with edges := append_edge n.edges e }))

/-- The inter-layer edge pass of `cartesian_graph_product` (lines 2635-2704): for
every row index `i < dim2` and every `graph1` node position `j < dim1`, each
outgoing edge of that node whose destination id equals the id of some `graph1` node
(first match, position `k`) yields one product edge from row `i` of layer `j` to
row `i` of layer `k`, with weight `DEFAULT_WEIGHT_CARTESIAN_PRODUCT = 0` and label
`"cartesian_product_edge"`, appended to the layer node's list. -/
def cartesian_inter_layer (g1 : Graph) (dim1 dim2 : Nat) (layers : List Graph)
    (st : AllocState) : List Graph × AllocState :=
  let node_ids := g1.map (·.id)
  (List.range dim2).foldl
    (fun acc i =>
      (List.range dim1).foldl
        (fun acc2 j =>
          let gj := g1.getD j default
          gj.edges.foldl
            (fun acc3 e =>
              match node_ids.findIdx? (fun x => x == e.dst) with
              | some k =>
                  let srcId := ((acc3.1.getD j []).getD i default).id
                  let dstId := ((acc3.1.getD k []).getD i default).id
                  let (ne, st') := create_new_edge 0 "cartesian_product_edge" srcId dstId acc3.2
                  (cartesian_add_edge acc3.1 j i ne, st')
              | none => acc3)
            acc2)
        acc)
    (layers, st)

/-- `cartesian_graph_product` (lines 2593-2713).  The result node list is built
*before* the inter-layer pass, by value-copying each layer's node structs into the
result list (line 2626).  A later append to a layer node's edge list is visible
through the copied struct only when that list was non-empty at copy time (the
copied head pointer then reaches the appended tail cells); when it was empty, the
new list head is stored only in the layer's struct and the result keeps an empty
list for that node. -/
def cartesian_graph_product (g1 g2 : Graph) (st : AllocState) : Graph × AllocState :=
  match g1, g2 with
  | [], _ => ([], st)
  | _, [] => ([], st)
  | _, _ =>
      let dim1 := graph_dim g1
      let dim2 := graph_dim g2
      let (layers, st1) := (List.range dim1).foldl
        (fun acc _ =>
          let (copy, st') := create_graph_copy g2 acc.2
          (acc.1 ++ [copy], st'))
        (([] : List Graph), st)
      let (layersF, st2) := cartesian_inter_layer g1 dim1 dim2 layers st1
      let cart := (layers.zip layersF).foldl
        (fun acc pr =>
          acc ++ ((pr.1.zip pr.2).map (fun pp =>
            if pp.1.edges.isEmpty then pp.1 else pp.2)))
        (([] : Graph))
      (cart, st2)

/-- `parallel_graph_composition` (lines 2738-2770): requires all four terminal ids
to resolve in their respective graphs; on failure returns NULL having performed no
write at all (the four `find_node` calls are the only statements executed before
the check).  On success: disjoint union, then contraction of the two sources
(survivor `source_1`), then of the two sinks (survivor `sink_1`).  On the success
path the C originals alias storage reworked by the contractions and are documented
as consumed (spec section 5); the embedding treats the inputs as immutable values
and hands them back unchanged next to the result — exact on the failure path, which
is the one the theorems below use. -/
def parallel_graph_composition (g1 g2 : Graph) (source_1 sink_1 source_2 sink_2 : Nat)
    (st : AllocState) : Option Graph × Graph × Graph × AllocState :=
  if (find_node g1 source_1).isSome && (find_node g1 sink_1).isSome
      && (find_node g2 source_2).isSome && (find_node g2 sink_2).isSome then
    let u0 := disjoint_graph_union g1 g2
    let (u1, st1) := vertex_contraction u0 source_1 source_2 st
    let (u2, st2) := vertex_contraction u1 sink_1 sink_2 st1
    (some u2, g1, g2, st2)
  else (none, g1, g2, st)

/-- `series_graph_composition` (lines 2815-2871): when both terminal ids resolve,
builds the disjoint union (line 2837) and then appends the two bridging edges (the
fixed `SERIES_EDGE_DEFAULT_WEIGHT = 0`, label `"series_composition_edge"`) to the
*original* graphs' terminal node structs (lines 2843-2863).  The union copied those
structs by value beforehand, so a bridge edge reaches the returned union only when
the terminal's edge list was non-empty at union time (the copied head pointer then
reaches the appended tail cell); a terminal whose list was empty keeps an empty
list in the returned union.  On failure (either id unresolved) the function
performs no write and returns NULL.  The post-call contents of the two input
graphs are returned alongside the result. -/
def series_graph_composition (g1 g2 : Graph) (source_id sink_id : Nat)
    (st : AllocState) : Option Graph × Graph × Graph × AllocState :=
  match get_node_from_id g1 source_id, get_node_from_id g2 sink_id with
  | some left_node, some right_node =>
      let (e1, st1) :=
        create_new_edge 0 "series_composition_edge" left_node.id right_node.id st
      let (e2, st2) :=
        create_new_edge 0 "series_composition_edge" right_node.id left_node.id st1
      let u :=
        update_first_node g1 source_id (fun n =>
          if n.edges.isEmpty then n else { n with edges := append_edge n.edges e1 })
        ++ update_first_node g2 sink_id (fun n =>
          if n.edges.isEmpty then n else { n with edges := append_edge n.edges e2 })
      let g1' := update_first_node g1 source_id
        (fun n => { n with edges := append_edge n.edges e1 })
      let g2' := update_first_node g2 sink_id
        (fun n => { n with edges := append_edge n.edges e2 })
      (some u, g1', g2', st2)
  | _, _ => (none, g1, g2, st)

/-- Total number of edges owned by a graph's nodes. -/
def total_edge_count (graph : Graph) : Nat :=
  (graph.map (fun n => edge_list_dim n.edges)).sum

/-! ## Helper lemmas -/

theorem foldl_append_revoked_id (ids : List Nat) (l : List Nat) :
    ids.foldl append_revoked_id l = l ++ ids := by
  induction ids generalizing l with
  | nil => simp
  | cons i t ih => simp [append_revoked_id, ih]

theorem delete_graph_spec (g : Graph) (st : AllocState) :
    delete_graph g st =
      ([], { st with
              revoked_node_ids := st.revoked_node_ids ++ g.map (·.id),
              revoked_edge_ids :=
                st.revoked_edge_ids ++ (g.map (fun n => n.edges.map (·.id))).flatten }) := by
  induction g generalizing st with
  | nil => simp [delete_graph]
  | cons n t ih =>
      simp [delete_graph, ih, append_revoked_id, foldl_append_revoked_id]

theorem delete_node_state_found (g : Graph) (id : Nat) (st : AllocState)
    (h : (find_node g id).isSome) :
    (delete_node g id st).2 =
      { st with revoked_node_ids := st.revoked_node_ids ++ [id] } := by
  induction g with
  | nil => simp [find_node] at h
  | cons n t ih =>
      by_cases hn : n.id == id
      · simp [delete_node, hn, append_revoked_id]
      · rw [find_node, List.find?] at h
        simp only [hn] at h
        simp [delete_node, hn, ih (by simpa [find_node] using h)]

/-! ## Claim theorems -/

/-- C9: `push_node` and `push_edge` applied to an empty collection return the empty
collection unchanged — the element is silently not inserted — and prepend the
element only when the collection is already non-empty. -/
theorem claim_C9_push_on_empty_is_noop (n m : graph_node) (g : Graph)
    (e c : graph_edge) (es : List graph_edge) :
    push_node [] n = [] ∧ push_edge [] e = [] ∧
    push_node (m :: g) n = n :: m :: g ∧ push_edge (c :: es) e = e :: c :: es :=
  ⟨rfl, rfl, rfl, rfl⟩

/-- C3 counterexample: from the initial allocator state, create one node.  The only
node id ever issued is 1 (the high-water mark), and the global counter has advanced
to 2.  Yet `exists_node_from_id` reports id 2 — strictly above the high-water
mark — as in use, because the code compares the queried id against the counter
itself (`node_id <= global_node_id`, line 1593) and the counter is the *next* id to
issue, not the highest issued.  This refutes the claim that ids strictly above the
highest identifier ever issued are never reported in use. -/
theorem claim_C3_counterexample :
    (create_new_node "a" initAllocState).1.id = 1 ∧
    (create_new_node "a" initAllocState).2.global_node_id = 2 ∧
    exists_node_from_id (create_new_node "a" initAllocState).2 2 = true := by
  decide

/-- C3 (amended): `exists_node_from_id` (resp. `exists_edge_from_id`) returns true
iff the id is at most the namespace's *global counter* — which is one greater than
the highest identifier issued so far, the counter being post-incremented at issue
time — and the id is not currently in the recycle pool.  In particular an id
strictly above the counter is never reported in use, but the single id exactly one
above the high-water mark is. -/
theorem claim_C3_in_use_iff (st : AllocState) (id : Nat) :
    (exists_node_from_id st id = true ↔
      id ≤ st.global_node_id ∧ id ∉ st.revoked_node_ids) ∧
    (exists_edge_from_id st id = true ↔
      id ≤ st.global_edge_id ∧ id ∉ st.revoked_edge_ids) := by
  unfold exists_node_from_id exists_edge_from_id find_revoked_id
  constructor <;> (split <;> simp_all [List.elem_iff])

/-- Iterated `create_new_node`: one allocator-backed node per label, in order (the
creation loop a caller performs, e.g. `input_graph`/`load_graph`). -/
def create_nodes (labels : List String) (st : AllocState) :
    List graph_node × AllocState :=
  match labels with
  | [] => ([], st)
  | l :: ls =>
      let (n, st1) := create_new_node l st
      let (ns, st2) := create_nodes ls st1
      (n :: ns, st2)

/-- Iterated `delete_node`, deleting the listed ids in order. -/
def delete_nodes (g : Graph) (ids : List Nat) (st : AllocState) : Graph × AllocState :=
  match ids with
  | [] => (g, st)
  | i :: rest =>
      let (g1, st1) := delete_node g i st
      delete_nodes g1 rest st1

theorem delete_nodes_all (g : Graph) (st : AllocState) :
    delete_nodes g (g.map (·.id)) st =
      ([], { st with revoked_node_ids := st.revoked_node_ids ++ g.map (·.id) }) := by
  induction g generalizing st with
  | nil => simp [delete_nodes]
  | cons n t ih => simp [delete_nodes, delete_node, append_revoked_id, ih]

theorem create_nodes_drain_pool (labels : List String) (ids : List Nat)
    (st : AllocState) (hpool : st.revoked_node_ids = ids)
    (hlen : labels.length = ids.length) :
    ((create_nodes labels st).1.map (·.id)) = ids := by
  induction labels generalizing ids st with
  | nil =>
      have hids : ids = [] := by
        cases ids with
        | nil => rfl
        | cons _ _ => simp at hlen
      simp [create_nodes, hids]
  | cons l ls ih =>
      match ids, hlen with
      | i :: rest, hlen =>
          simp only [create_nodes, create_new_node, hpool]
          simpa using ih rest { st with revoked_node_ids := rest } rfl
            (by simpa using hlen)

/-- C4: allocation pops the oldest (front) entry of the corresponding recycle pool
when it is non-empty — `append_revoked_id` appends freed ids at the tail, so the
front is the first freed — and otherwise returns the counter value and advances the
counter; consequently deleting all N nodes of a graph and then creating N nodes
yields the same N ids back in first-deleted-first-reused order (pool initially
empty). -/
theorem claim_C4_fifo_recycling :
    (∀ (st : AllocState) (l : String) (h : Nat) (t : List Nat),
        st.revoked_node_ids = h :: t →
        create_new_node l st = (⟨h, l, []⟩, { st with revoked_node_ids := t })) ∧
    (∀ (st : AllocState) (l : String), st.revoked_node_ids = [] →
        create_new_node l st = (⟨st.global_node_id, l, []⟩,
          { st with global_node_id := st.global_node_id + 1 })) ∧
    (∀ (st : AllocState) (w : Int) (l : String) (a b h : Nat) (t : List Nat),
        st.revoked_edge_ids = h :: t →
        create_new_edge w l a b st = (⟨h, w, l, a, b⟩,
          { st with revoked_edge_ids := t })) ∧
    (∀ (st : AllocState) (w : Int) (l : String) (a b : Nat),
        st.revoked_edge_ids = [] →
        create_new_edge w l a b st = (⟨st.global_edge_id, w, l, a, b⟩,
          { st with global_edge_id := st.global_edge_id + 1 })) ∧
    (∀ (g : Graph) (labels : List String) (st : AllocState),
        st.revoked_node_ids = [] → labels.length = g.length →
        ((create_nodes labels (delete_nodes g (g.map (·.id)) st).2).1.map (·.id))
          = g.map (·.id)) := by
  refine ⟨?_, ?_, ?_, ?_, ?_⟩
  · intro st l h t hp; simp [create_new_node, hp]
  · intro st l hp; simp [create_new_node, set_node_id, hp]
  · intro st w l a b h t hp; simp [create_new_edge, hp]
  · intro st w l a b hp; simp [create_new_edge, set_edge_id, hp]
  · intro g labels st hp hlen
    rw [delete_nodes_all]
    apply create_nodes_drain_pool
    · simp [hp]
    · simpa using hlen

theorem claim_C4_fifo_recycling_witness :
    create_new_node "a" ⟨7, 1, [4, 9], []⟩ = (⟨4, "a", []⟩, ⟨7, 1, [9], []⟩) ∧
    create_new_node "b" ⟨7, 1, [], []⟩ = (⟨7, "b", []⟩, ⟨8, 1, [], []⟩) ∧
    create_new_edge 2 "e" 1 2 ⟨7, 5, [], [3]⟩ = (⟨3, 2, "e", 1, 2⟩, ⟨7, 5, [], []⟩) ∧
    create_new_edge 2 "f" 1 2 ⟨7, 5, [], []⟩ = (⟨5, 2, "f", 1, 2⟩, ⟨7, 6, [], []⟩) ∧
    ((create_nodes ["c", "d"]
        (delete_nodes [⟨1, "a", []⟩, ⟨2, "b", []⟩] [1, 2] ⟨3, 1, [], []⟩).2).1.map (·.id))
      = [1, 2] :=
  ⟨claim_C4_fifo_recycling.1 ⟨7, 1, [4, 9], []⟩ "a" 4 [9] rfl,
   claim_C4_fifo_recycling.2.1 ⟨7, 1, [], []⟩ "b" rfl,
   claim_C4_fifo_recycling.2.2.1 ⟨7, 5, [], [3]⟩ 2 "e" 1 2 3 [] rfl,
   claim_C4_fifo_recycling.2.2.2.1 ⟨7, 5, [], []⟩ 2 "f" 1 2 rfl,
   claim_C4_fifo_recycling.2.2.2.2 [⟨1, "a", []⟩, ⟨2, "b", []⟩] ["c", "d"]
     ⟨3, 1, [], []⟩ rfl rfl⟩

/-- C10: `delete_node` on a node that resolves (here with a non-empty outgoing edge
collection) returns only the node id to the node recycle pool: the edge recycle
pool is untouched and none of the deleted node's edge ids are revoked, while the
node pool gains exactly the deleted id at its tail — unlike `delete_graph`, which
appends every contained node id and every contained edge id to the respective
pools. -/
theorem claim_C10_delete_node_recycles_only_node_id (g : Graph) (id : Nat)
    (st : AllocState) (n : graph_node) (hfind : find_node g id = some n)
    (_hne : n.edges ≠ []) :
    (delete_node g id st).2.revoked_edge_ids = st.revoked_edge_ids ∧
    (delete_node g id st).2.revoked_node_ids = st.revoked_node_ids ++ [id] ∧
    (delete_node g id st).2.global_node_id = st.global_node_id ∧
    (delete_node g id st).2.global_edge_id = st.global_edge_id ∧
    (delete_graph g st).2.revoked_node_ids = st.revoked_node_ids ++ g.map (·.id) ∧
    (delete_graph g st).2.revoked_edge_ids
      = st.revoked_edge_ids ++ (g.map (fun m => m.edges.map (·.id))).flatten := by
  have hst := delete_node_state_found g id st (by simp [hfind])
  refine ⟨?_, ?_, ?_, ?_, ?_, ?_⟩
  · rw [hst]
  · rw [hst]
  · rw [hst]
  · rw [hst]
  · rw [delete_graph_spec]
  · rw [delete_graph_spec]

theorem claim_C10_delete_node_recycles_only_node_id_witness :
    (delete_node [⟨1, "a", [⟨1, 0, "e", 1, 1⟩]⟩] 1 ⟨2, 2, [], []⟩).2.revoked_edge_ids
        = [] ∧
    (delete_node [⟨1, "a", [⟨1, 0, "e", 1, 1⟩]⟩] 1 ⟨2, 2, [], []⟩).2.revoked_node_ids
        = [1] ∧
    (delete_node [⟨1, "a", [⟨1, 0, "e", 1, 1⟩]⟩] 1 ⟨2, 2, [], []⟩).2.global_node_id = 2 ∧
    (delete_node [⟨1, "a", [⟨1, 0, "e", 1, 1⟩]⟩] 1 ⟨2, 2, [], []⟩).2.global_edge_id = 2 ∧
    (delete_graph [⟨1, "a", [⟨1, 0, "e", 1, 1⟩]⟩] ⟨2, 2, [], []⟩).2.revoked_node_ids
        = [1] ∧
    (delete_graph [⟨1, "a", [⟨1, 0, "e", 1, 1⟩]⟩] ⟨2, 2, [], []⟩).2.revoked_edge_ids
        = [1] :=
  claim_C10_delete_node_recycles_only_node_id
    [⟨1, "a", [⟨1, 0, "e", 1, 1⟩]⟩] 1 ⟨2, 2, [], []⟩ ⟨1, "a", [⟨1, 0, "e", 1, 1⟩]⟩
    (by decide) (by decide)

/-- C2: `parallel_graph_composition` with any of its four terminal ids not
resolving in its respective graph, and `series_graph_composition` with its source
id not resolving in `graph1` or its sink id not resolving in `graph2`, return NULL
and leave both input graphs and the allocator state completely unmodified (the
failure branch of each function performs no write). -/
theorem claim_C2_composition_boundary_failure :
    (∀ (g1 g2 : Graph) (s1 k1 s2 k2 : Nat) (st : AllocState),
        ¬((find_node g1 s1).isSome ∧ (find_node g1 k1).isSome
            ∧ (find_node g2 s2).isSome ∧ (find_node g2 k2).isSome) →
        parallel_graph_composition g1 g2 s1 k1 s2 k2 st = (none, g1, g2, st)) ∧
    (∀ (g1 g2 : Graph) (src snk : Nat) (st : AllocState),
        get_node_from_id g1 src = none ∨ get_node_from_id g2 snk = none →
        series_graph_composition g1 g2 src snk st = (none, g1, g2, st)) := by
  constructor
  · intro g1 g2 s1 k1 s2 k2 st h
    rw [parallel_graph_composition, if_neg]
    simpa [Bool.and_eq_true] using h
  · intro g1 g2 src snk st h
    rcases h with h | h
    · simp [series_graph_composition, h]
    · rw [series_graph_composition, h]
      cases get_node_from_id g1 src <;> rfl

theorem claim_C2_composition_boundary_failure_witness :
    parallel_graph_composition [⟨1, "a", []⟩] [] 1 1 2 2 initAllocState
      = (none, [⟨1, "a", []⟩], [], initAllocState) ∧
    series_graph_composition [⟨1, "a", []⟩] [] 1 2 initAllocState
      = (none, [⟨1, "a", []⟩], [], initAllocState) :=
  ⟨claim_C2_composition_boundary_failure.1 [⟨1, "a", []⟩] [] 1 1 2 2 initAllocState
      (by decide),
   claim_C2_composition_boundary_failure.2 [⟨1, "a", []⟩] [] 1 2 initAllocState
      (Or.inr (by decide))⟩

/-- C1 [failing-input evaluation]: contract node A (id 2, one self-loop) into node
B (id 1, no outgoing edges).  There is no mutual A-B edge, so the claim requires
B's final outgoing collection to be A's original collection with the A endpoints
rewritten to B — one self-loop on B.  The code instead leaves B with zero outgoing
edges: at lines 2373-2380 the merged list produced by `append_edge` is only ever
stored in the local `ptr2` (B's list was empty, so B's struct keeps NULL), and the
donor's edges are silently dropped, contradicting the source's own comment ("append
it to the merge_node") and the claim. -/
theorem claim_C1_contraction_drops_donor_edges :
    vertex_contraction [⟨1, "B", []⟩, ⟨2, "A", [⟨1, 0, "loop", 2, 2⟩]⟩] 1 2
        ⟨3, 2, [], []⟩
      = ([⟨1, "B", []⟩], ⟨3, 2, [2], []⟩) ∧
    total_edge_count
        (vertex_contraction [⟨1, "B", []⟩, ⟨2, "A", [⟨1, 0, "loop", 2, 2⟩]⟩] 1 2
          ⟨3, 2, [], []⟩).1 = 0 ∧
    (0 : Nat) ≠ 1 := by
  refine ⟨by decide, by decide, by decide⟩

/-- C7 [failing-input evaluation]: series composition of two single-node graphs
whose terminal nodes have no outgoing edges.  Both terminal ids resolve, so the
claim requires the returned union to carry exactly the two bridging edges.  The
code creates both bridge edges (the allocator state shows two edge ids issued) and
appends them to the *original* graphs' node structs (lines 2843-2863) — after the
union already value-copied those structs (line 2837) — so the returned union
contains zero edges. -/
theorem claim_C7_series_loses_bridge_edges :
    series_graph_composition [⟨1, "x", []⟩] [⟨2, "y", []⟩] 1 2 ⟨3, 1, [], []⟩
      = (some [⟨1, "x", []⟩, ⟨2, "y", []⟩],
         [⟨1, "x", [⟨1, 0, "series_composition_edge", 1, 2⟩]⟩],
         [⟨2, "y", [⟨2, 0, "series_composition_edge", 2, 1⟩]⟩],
         ⟨3, 3, [], []⟩) ∧
    total_edge_count
        ((series_graph_composition [⟨1, "x", []⟩] [⟨2, "y", []⟩] 1 2
          ⟨3, 1, [], []⟩).1.getD []) = 0 ∧
    (0 : Nat) ≠ 2 := by
  refine ⟨by decide, by decide, by decide⟩

/-- C6 [failing-input evaluation]: Cartesian product of G1 = (A → B) and
G2 = (C → D): two nodes and one edge each, no self-loops, no parallel edges.  The
claim requires |G1|·|G2| = 4 nodes — which holds — and
|G1|·E(G2) + E(G1)·|G2| = 2·1 + 1·2 = 4 edges.  The returned product has only 3
edges: the product edge sourced at the D-copy of layer 0 (row 1) is appended to the
layer's node struct (lines 2678-2685) *after* that struct was value-copied into the
result list (line 2626) with an empty edge list, so the result's copy keeps an
empty list and the edge is lost. -/
theorem claim_C6_cartesian_size_mismatch :
    graph_dim
        (cartesian_graph_product
          [⟨1, "A", [⟨1, 0, "e1", 1, 2⟩]⟩, ⟨2, "B", []⟩]
          [⟨3, "C", [⟨2, 0, "e2", 3, 4⟩]⟩, ⟨4, "D", []⟩]
          ⟨5, 3, [], []⟩).1 = 4 ∧
    total_edge_count
        (cartesian_graph_product
          [⟨1, "A", [⟨1, 0, "e1", 1, 2⟩]⟩, ⟨2, "B", []⟩]
          [⟨3, "C", [⟨2, 0, "e2", 3, 4⟩]⟩, ⟨4, "D", []⟩]
          ⟨5, 3, [], []⟩).1 = 3 ∧
    (3 : Nat) ≠ 2 * 1 + 1 * 2 := by
  refine ⟨by decide, by decide, by decide⟩

/-! ## Claim C8: identifier uniqueness along operation traces -/

/-- The ids of the live nodes of a graph. -/
def live_node_ids (g : Graph) : List Nat := g.map (·.id)

/-- The ids of the live edges of a graph (union of all nodes' edge collections, in
traversal order). -/
def live_edge_ids (g : Graph) : List Nat :=
  (g.map (fun n => n.edges.map (·.id))).flatten

/-- The allocator-backed mutating operations named by claim C8, as a caller drives
them: node creation (`create_new_node` handed to `append_node`), edge creation
aimed at an existing node (`create_new_edge` attached via the
`add_new_edges_to_node`/`append_edge` path; the edge names its owner as source, as
in `input_edge_list`, and is dropped when the owner does not resolve), node
deletion, single-edge deletion (`delete_edge_from_node`) and whole-graph teardown. -/
inductive GraphOp where
  | newNode (label : String)
  | newEdge (node_id : Nat) (weight : Int) (label : String) (dst : Nat)
  | delNode (id : Nat)
  | delEdge (node_id edge_id : Nat)
  | delGraph

/-- One step of the operation trace over the (graph, allocator) state. -/
def stepOp (s : Graph × AllocState) : GraphOp → Graph × AllocState
  | .newNode l =>
      let (n, st') := create_new_node l s.2
      (append_node s.1 n, st')
  | .newEdge nid w l dst =>
      let (e, st') := create_new_edge w l nid dst s.2
      (if (find_node s.1 nid).isSome then
          update_first_node s.1 nid (fun n => { n with edges := append_edge n.edges e })
        else s.1,
       st')
  | .delNode id => delete_node s.1 id s.2
  | .delEdge nid eid => delete_edge_from_node s.1 nid eid s.2
  | .delGraph => delete_graph s.1 s.2

/-- Run a trace from the empty graph and the program-start allocator state. -/
def runOps (ops : List GraphOp) : Graph × AllocState :=
  ops.foldl stepOp ([], initAllocState)

/-- The inductive invariant tying the live ids to the allocator state: live ids in
each namespace are pairwise distinct, below the counter and outside the recycle
pool, and each pool is itself duplicate-free and below its counter. -/
structure AllocInv (g : Graph) (st : AllocState) : Prop where
  node_nodup : (live_node_ids g).Nodup
  node_lt : ∀ i ∈ live_node_ids g, i < st.global_node_id
  node_fresh : ∀ i ∈ live_node_ids g, i ∉ st.revoked_node_ids
  node_pool_nodup : st.revoked_node_ids.Nodup
  node_pool_lt : ∀ x ∈ st.revoked_node_ids, x < st.global_node_id
  edge_nodup : (live_edge_ids g).Nodup
  edge_lt : ∀ i ∈ live_edge_ids g, i < st.global_edge_id
  edge_fresh : ∀ i ∈ live_edge_ids g, i ∉ st.revoked_edge_ids
  edge_pool_nodup : st.revoked_edge_ids.Nodup
  edge_pool_lt : ∀ x ∈ st.revoked_edge_ids, x < st.global_edge_id

theorem live_node_ids_nil : live_node_ids [] = [] := rfl

theorem live_node_ids_cons (n : graph_node) (t : Graph) :
    live_node_ids (n :: t) = n.id :: live_node_ids t := rfl

theorem live_node_ids_append (a b : Graph) :
    live_node_ids (a ++ b) = live_node_ids a ++ live_node_ids b := by
  simp [live_node_ids]

theorem live_edge_ids_nil : live_edge_ids [] = [] := rfl

theorem live_edge_ids_cons (n : graph_node) (t : Graph) :
    live_edge_ids (n :: t) = n.edges.map (·.id) ++ live_edge_ids t := by
  simp [live_edge_ids]

theorem live_edge_ids_append (a b : Graph) :
    live_edge_ids (a ++ b) = live_edge_ids a ++ live_edge_ids b := by
  simp [live_edge_ids]

theorem remove_first_edge_map_id (es : List graph_edge) (i : Nat) :
    (remove_first_edge es i).map (·.id) = (es.map (·.id)).erase i := by
  induction es with
  | nil => rfl
  | cons e t ih =>
      by_cases h : e.id == i
      · simp [remove_first_edge, h, List.erase_cons, eq_of_beq h]
      · simp only [remove_first_edge, h]
        rw [List.map_cons, List.erase_cons]
        simp only [beq_iff_eq] at h
        simp [h, ih]

theorem find_node_cons (x : graph_node) (t : Graph) (id : Nat) :
    find_node (x :: t) id = if x.id == id then some x else find_node t id := by
  by_cases hx : (x.id == id) = true
  · simp [find_node, List.find?, hx]
  · simp only [Bool.not_eq_true] at hx
    simp [find_node, List.find?, hx]

theorem find_node_split (g : Graph) (id : Nat) (n : graph_node)
    (h : find_node g id = some n) :
    ∃ A B, g = A ++ n :: B ∧ n.id = id ∧ ∀ m ∈ A, ¬(m.id = id) := by
  induction g with
  | nil => simp [find_node] at h
  | cons x t ih =>
      rw [find_node_cons] at h
      by_cases hx : (x.id == id) = true
      · rw [if_pos hx] at h
        obtain rfl : x = n := by injection h
        exact ⟨[], t, rfl, by simpa using hx, by simp⟩
      · rw [if_neg hx] at h
        obtain ⟨A, B, hg, hid, hA⟩ := ih h
        refine ⟨x :: A, B, by simp [hg], hid, ?_⟩
        intro m hm
        rcases List.mem_cons.mp hm with rfl | hm
        · simpa using hx
        · exact hA m hm

theorem delete_node_eq_of_split (A B : Graph) (n : graph_node) (st : AllocState)
    (hA : ∀ m ∈ A, ¬(m.id = n.id)) :
    delete_node (A ++ n :: B) n.id st
      = (A ++ B, { st with revoked_node_ids := st.revoked_node_ids ++ [n.id] }) := by
  induction A with
  | nil => simp [delete_node, append_revoked_id]
  | cons a t ih =>
      have ha : (a.id == n.id) = false :=
        beq_eq_false_iff_ne.mpr (hA a (List.mem_cons_self a t))
      have ih' := ih (fun m hm => hA m (List.mem_cons_of_mem a hm))
      rw [List.cons_append]
      simp only [delete_node, ha, Bool.false_eq_true, if_false, List.append_eq]
      rw [ih']
      simp

theorem delete_node_not_found (g : Graph) (id : Nat) (st : AllocState)
    (h : find_node g id = none) : delete_node g id st = (g, st) := by
  induction g with
  | nil => rfl
  | cons x t ih =>
      rw [find_node_cons] at h
      by_cases hx : (x.id == id) = true
      · rw [if_pos hx] at h; cases h
      · rw [if_neg hx] at h
        have hx' : (x.id == id) = false := by
          simpa using hx
        simp only [delete_node, hx', Bool.false_eq_true, if_false]
        rw [ih h]

theorem update_first_node_eq_of_split (A B : Graph) (n : graph_node)
    (f : graph_node → graph_node) (hA : ∀ m ∈ A, ¬(m.id = n.id)) :
    update_first_node (A ++ n :: B) n.id f = A ++ f n :: B := by
  induction A with
  | nil => simp [update_first_node]
  | cons a t ih =>
      have ha : (a.id == n.id) = false :=
        beq_eq_false_iff_ne.mpr (hA a (List.mem_cons_self a t))
      have ih' := ih (fun m hm => hA m (List.mem_cons_of_mem a hm))
      rw [List.cons_append]
      simp only [update_first_node, ha, Bool.false_eq_true, if_false, List.append_eq]
      rw [ih']
      simp

theorem delete_edge_from_node_eq_of_split (A B : Graph) (n : graph_node)
    (eid : Nat) (st : AllocState) (hA : ∀ m ∈ A, ¬(m.id = n.id)) :
    delete_edge_from_node (A ++ n :: B) n.id eid st
      = (A ++ { n with edges := (delete_edge n.edges eid st).1 } :: B,
         (delete_edge n.edges eid st).2) := by
  induction A with
  | nil => simp [delete_edge_from_node]
  | cons a t ih =>
      have ha : (a.id == n.id) = false :=
        beq_eq_false_iff_ne.mpr (hA a (List.mem_cons_self a t))
      have ih' := ih (fun m hm => hA m (List.mem_cons_of_mem a hm))
      rw [List.cons_append]
      simp only [delete_edge_from_node, ha, Bool.false_eq_true, if_false, List.append_eq]
      rw [ih']
      simp

theorem delete_edge_from_node_not_found (g : Graph) (nid eid : Nat)
    (st : AllocState) (h : find_node g nid = none) :
    delete_edge_from_node g nid eid st = (g, st) := by
  induction g with
  | nil => rfl
  | cons x t ih =>
      rw [find_node_cons] at h
      by_cases hx : (x.id == nid) = true
      · rw [if_pos hx] at h; cases h
      · rw [if_neg hx] at h
        have hx' : (x.id == nid) = false := by
          simpa using hx
        simp only [delete_edge_from_node, hx', Bool.false_eq_true, if_false]
        rw [ih h]

theorem AllocInv_newNode (g : Graph) (st : AllocState) (l : String)
    (h : AllocInv g st) :
    AllocInv (append_node g (create_new_node l st).1) (create_new_node l st).2 := by
  rcases hp : st.revoked_node_ids with _ | ⟨x, t⟩
  · simp only [create_new_node, hp, set_node_id, append_node]
    refine ⟨?_, ?_, ?_, ?_, ?_, ?_, ?_, ?_, ?_, ?_⟩
    · rw [live_node_ids_append, List.nodup_append]
      refine ⟨h.node_nodup, List.nodup_singleton _, ?_⟩
      intro i hi hmem
      rw [live_node_ids_cons, live_node_ids_nil, List.mem_singleton] at hmem
      exact absurd (hmem ▸ h.node_lt i hi) (lt_irrefl _)
    · intro i hi
      rw [live_node_ids_append] at hi
      rcases List.mem_append.mp hi with hi | hi
      · exact Nat.lt_succ_of_lt (h.node_lt i hi)
      · rw [live_node_ids_cons, live_node_ids_nil, List.mem_singleton] at hi
        subst hi; exact Nat.lt_succ_self _
    · intro i _
      simp
    · simp
    · intro y hy
      simp at hy
    · rw [live_edge_ids_append, live_edge_ids_cons, live_edge_ids_nil]
      simpa using h.edge_nodup
    · intro i hi
      rw [live_edge_ids_append, live_edge_ids_cons, live_edge_ids_nil] at hi
      simp only [List.map_nil, List.nil_append, List.append_nil] at hi
      exact h.edge_lt i hi
    · intro i hi
      rw [live_edge_ids_append, live_edge_ids_cons, live_edge_ids_nil] at hi
      simp only [List.map_nil, List.nil_append, List.append_nil] at hi
      exact h.edge_fresh i hi
    · exact h.edge_pool_nodup
    · exact h.edge_pool_lt
  · simp only [create_new_node, hp, append_node]
    have hx_pool : x ∈ st.revoked_node_ids := by rw [hp]; exact List.mem_cons_self x t
    have hxt : x ∉ t ∧ t.Nodup := by
      have := h.node_pool_nodup
      rw [hp, List.nodup_cons] at this
      exact this
    refine ⟨?_, ?_, ?_, ?_, ?_, ?_, ?_, ?_, ?_, ?_⟩
    · rw [live_node_ids_append, List.nodup_append]
      refine ⟨h.node_nodup, List.nodup_singleton _, ?_⟩
      intro i hi hmem
      rw [live_node_ids_cons, live_node_ids_nil, List.mem_singleton] at hmem
      exact h.node_fresh i hi (hmem ▸ hx_pool)
    · intro i hi
      rw [live_node_ids_append] at hi
      rcases List.mem_append.mp hi with hi | hi
      · exact h.node_lt i hi
      · rw [live_node_ids_cons, live_node_ids_nil, List.mem_singleton] at hi
        subst hi; exact h.node_pool_lt i hx_pool
    · intro i hi
      rw [live_node_ids_append] at hi
      rcases List.mem_append.mp hi with hi | hi
      · intro hmem
        exact h.node_fresh i hi (by rw [hp]; exact List.mem_cons_of_mem x hmem)
      · rw [live_node_ids_cons, live_node_ids_nil, List.mem_singleton] at hi
        subst hi; exact hxt.1
    · exact hxt.2
    · intro y hy
      exact h.node_pool_lt y (by rw [hp]; exact List.mem_cons_of_mem x hy)
    · rw [live_edge_ids_append, live_edge_ids_cons, live_edge_ids_nil]
      simpa using h.edge_nodup
    · intro i hi
      rw [live_edge_ids_append, live_edge_ids_cons, live_edge_ids_nil] at hi
      simp only [List.map_nil, List.nil_append, List.append_nil] at hi
      exact h.edge_lt i hi
    · intro i hi
      rw [live_edge_ids_append, live_edge_ids_cons, live_edge_ids_nil] at hi
      simp only [List.map_nil, List.nil_append, List.append_nil] at hi
      exact h.edge_fresh i hi
    · exact h.edge_pool_nodup
    · exact h.edge_pool_lt

theorem nodup_insert_middle {α : Type} {x y : List α} {a : α}
    (hnd : (x ++ y).Nodup) (hax : a ∉ x) (hay : a ∉ y) :
    (x ++ a :: y).Nodup := by
  rw [(List.perm_middle).nodup_iff]
  exact List.nodup_cons.mpr ⟨by simp [hax, hay], hnd⟩

theorem create_new_edge_alloc (w : Int) (lbl : String) (a b : Nat)
    (st : AllocState) (live : List Nat)
    (hlt : ∀ i ∈ live, i < st.global_edge_id)
    (hfresh : ∀ i ∈ live, i ∉ st.revoked_edge_ids)
    (hpn : st.revoked_edge_ids.Nodup)
    (hpl : ∀ x ∈ st.revoked_edge_ids, x < st.global_edge_id) :
    ((create_new_edge w lbl a b st).1.id ∉ live) ∧
    (∀ i ∈ live, i < (create_new_edge w lbl a b st).2.global_edge_id) ∧
    ((create_new_edge w lbl a b st).1.id
        < (create_new_edge w lbl a b st).2.global_edge_id) ∧
    (∀ i ∈ live, i ∉ (create_new_edge w lbl a b st).2.revoked_edge_ids) ∧
    ((create_new_edge w lbl a b st).1.id
        ∉ (create_new_edge w lbl a b st).2.revoked_edge_ids) ∧
    (create_new_edge w lbl a b st).2.revoked_edge_ids.Nodup ∧
    (∀ x ∈ (create_new_edge w lbl a b st).2.revoked_edge_ids,
        x < (create_new_edge w lbl a b st).2.global_edge_id) ∧
    (create_new_edge w lbl a b st).2.global_node_id = st.global_node_id ∧
    (create_new_edge w lbl a b st).2.revoked_node_ids = st.revoked_node_ids := by
  rcases hp : st.revoked_edge_ids with _ | ⟨x, t⟩
  · simp only [create_new_edge, hp, set_edge_id]
    refine ⟨?_, ?_, ?_, ?_, ?_, ?_, ?_, ?_, ?_⟩
    · intro hmem
      exact absurd (hlt _ hmem) (lt_irrefl _)
    · intro i hi
      exact Nat.lt_succ_of_lt (hlt i hi)
    · exact Nat.lt_succ_self _
    · intro i _
      simp
    · simp
    · simp
    · intro y hy
      simp at hy
    · trivial
    · trivial
  · have hxt : x ∉ t ∧ t.Nodup := by
      have := hpn
      rw [hp, List.nodup_cons] at this
      exact this
    simp only [create_new_edge, hp]
    refine ⟨?_, ?_, ?_, ?_, ?_, ?_, ?_, ?_, ?_⟩
    · intro hmem
      exact hfresh _ hmem (by rw [hp]; exact List.mem_cons_self x t)
    · exact hlt
    · exact hpl x (by rw [hp]; exact List.mem_cons_self x t)
    · intro i hi hmem
      exact hfresh i hi (by rw [hp]; exact List.mem_cons_of_mem x hmem)
    · exact hxt.1
    · exact hxt.2
    · intro y hy
      exact hpl y (by rw [hp]; exact List.mem_cons_of_mem x hy)
    · trivial
    · trivial

theorem AllocInv_newEdge (g : Graph) (st : AllocState) (nid : Nat) (w : Int)
    (lbl : String) (dst : Nat) (h : AllocInv g st) :
    AllocInv
      (if (find_node g nid).isSome then
          update_first_node g nid (fun n =>
            { n with edges := append_edge n.edges (create_new_edge w lbl nid dst st).1 })
        else g)
      (create_new_edge w lbl nid dst st).2 := by
  obtain ⟨ha1, ha2, ha3, ha4, ha5, ha6, ha7, ha8, ha9⟩ :=
    create_new_edge_alloc w lbl nid dst st (live_edge_ids g)
      h.edge_lt h.edge_fresh h.edge_pool_nodup h.edge_pool_lt
  rcases hfind : find_node g nid with _ | n
  · simp only [hfind, Option.isSome_none, Bool.false_eq_true, if_false]
    exact ⟨h.node_nodup,
      fun i hi => by rw [ha8]; exact h.node_lt i hi,
      fun i hi => by rw [ha9]; exact h.node_fresh i hi,
      by rw [ha9]; exact h.node_pool_nodup,
      fun x hx => by rw [ha8]; exact h.node_pool_lt x (by rwa [ha9] at hx),
      h.edge_nodup, ha2, ha4, ha6, ha7⟩
  · simp only [hfind, Option.isSome_some, if_true]
    obtain ⟨A, B, rfl, hid, hA⟩ := find_node_split g nid n hfind
    subst hid
    rw [update_first_node_eq_of_split A B n _ hA]
    have hEold : live_edge_ids (A ++ n :: B)
        = (live_edge_ids A ++ n.edges.map (·.id)) ++ live_edge_ids B := by
      rw [live_edge_ids_append, live_edge_ids_cons]
      simp [List.append_assoc]
    have hEnew : live_edge_ids
          (A ++ { n with
                  edges := append_edge n.edges (create_new_edge w lbl n.id dst st).1 } :: B)
        = (live_edge_ids A ++ n.edges.map (·.id))
            ++ (create_new_edge w lbl n.id dst st).1.id :: live_edge_ids B := by
      rw [live_edge_ids_append, live_edge_ids_cons]
      simp [append_edge, List.append_assoc]
    have hNsame : live_node_ids
          (A ++ { n with
                  edges := append_edge n.edges (create_new_edge w lbl n.id dst st).1 } :: B)
        = live_node_ids (A ++ n :: B) := by
      simp [live_node_ids]
    refine ⟨?_, ?_, ?_, ?_, ?_, ?_, ?_, ?_, ?_, ?_⟩
    · rw [hNsame]; exact h.node_nodup
    · intro i hi
      rw [hNsame] at hi
      rw [ha8]; exact h.node_lt i hi
    · intro i hi
      rw [hNsame] at hi
      rw [ha9]; exact h.node_fresh i hi
    · rw [ha9]; exact h.node_pool_nodup
    · intro x hx
      rw [ha9] at hx
      rw [ha8]; exact h.node_pool_lt x hx
    · rw [hEnew]
      apply nodup_insert_middle
      · rw [← hEold]; exact h.edge_nodup
      · intro hmem
        exact ha1 (by rw [hEold]; exact List.mem_append_left _ hmem)
      · intro hmem
        exact ha1 (by rw [hEold]; exact List.mem_append_right _ hmem)
    · intro i hi
      rw [hEnew] at hi
      rcases List.mem_append.mp hi with hi | hi
      · exact ha2 i (by rw [hEold]; exact List.mem_append_left _ hi)
      · rcases List.mem_cons.mp hi with rfl | hi
        · exact ha3
        · exact ha2 i (by rw [hEold]; exact List.mem_append_right _ hi)
    · intro i hi
      rw [hEnew] at hi
      rcases List.mem_append.mp hi with hi | hi
      · exact ha4 i (by rw [hEold]; exact List.mem_append_left _ hi)
      · rcases List.mem_cons.mp hi with rfl | hi
        · exact ha5
        · exact ha4 i (by rw [hEold]; exact List.mem_append_right _ hi)
    · exact ha6
    · exact ha7

theorem AllocInv_delNode (g : Graph) (st : AllocState) (id : Nat)
    (h : AllocInv g st) :
    AllocInv (delete_node g id st).1 (delete_node g id st).2 := by
  rcases hfind : find_node g id with _ | n
  · rw [delete_node_not_found g id st hfind]
    exact h
  · obtain ⟨A, B, rfl, hid, hA⟩ := find_node_split g id n hfind
    subst hid
    rw [delete_node_eq_of_split A B n st hA]
    have hNold : live_node_ids (A ++ n :: B)
        = live_node_ids A ++ n.id :: live_node_ids B := by
      rw [live_node_ids_append, live_node_ids_cons]
    have hn_live : n.id ∈ live_node_ids (A ++ n :: B) := by
      rw [hNold]
      exact List.mem_append_right _ (List.mem_cons_self _ _)
    have hnodupOld := h.node_nodup
    rw [hNold] at hnodupOld
    have hdecomp := List.nodup_cons.mp ((List.perm_middle.nodup_iff).mp hnodupOld)
    have hNsub : ∀ i ∈ live_node_ids (A ++ B), i ∈ live_node_ids (A ++ n :: B) := by
      intro i hi
      rw [live_node_ids_append] at hi
      rw [hNold]
      rcases List.mem_append.mp hi with hi | hi
      · exact List.mem_append_left _ hi
      · exact List.mem_append_right _ (List.mem_cons_of_mem _ hi)
    have hEsub : ∀ i ∈ live_edge_ids (A ++ B), i ∈ live_edge_ids (A ++ n :: B) := by
      intro i hi
      rw [live_edge_ids_append] at hi
      rw [live_edge_ids_append, live_edge_ids_cons]
      rcases List.mem_append.mp hi with hi | hi
      · exact List.mem_append_left _ hi
      · exact List.mem_append_right _ (List.mem_append_right _ hi)
    refine ⟨?_, ?_, ?_, ?_, ?_, ?_, ?_, ?_, ?_, ?_⟩
    · rw [live_node_ids_append]
      exact hdecomp.2
    · intro i hi
      exact h.node_lt i (hNsub i hi)
    · intro i hi
      intro hmem
      rcases List.mem_append.mp hmem with hmem | hmem
      · exact h.node_fresh i (hNsub i hi) hmem
      · rw [List.mem_singleton] at hmem
        subst hmem
        rw [live_node_ids_append] at hi
        exact hdecomp.1 hi
    · rw [List.nodup_append]
      refine ⟨h.node_pool_nodup, List.nodup_singleton _, ?_⟩
      intro x hx hmem
      rw [List.mem_singleton] at hmem
      subst hmem
      exact h.node_fresh n.id hn_live hx
    · intro x hx
      rcases List.mem_append.mp hx with hx | hx
      · exact h.node_pool_lt x hx
      · rw [List.mem_singleton] at hx
        subst hx
        exact h.node_lt n.id hn_live
    · have hsub : List.Sublist (live_edge_ids A ++ live_edge_ids B)
          (live_edge_ids A ++ (n.edges.map (·.id) ++ live_edge_ids B)) :=
        (List.sublist_append_right _ _).append_left _
      have hold := h.edge_nodup
      rw [live_edge_ids_append, live_edge_ids_cons] at hold
      rw [live_edge_ids_append]
      exact hold.sublist hsub
    · intro i hi
      exact h.edge_lt i (hEsub i hi)
    · intro i hi
      exact h.edge_fresh i (hEsub i hi)
    · exact h.edge_pool_nodup
    · exact h.edge_pool_lt

theorem delete_edge_cases (es : List graph_edge) (eid : Nat) (st : AllocState) :
    delete_edge es eid st = (es, st) ∨
    ((∃ e ∈ es, e.id = eid) ∧
      delete_edge es eid st
        = (remove_first_edge es eid,
           { st with revoked_edge_ids := st.revoked_edge_ids ++ [eid] })) := by
  by_cases h1 : (es.isEmpty || !(exists_edge_from_id st eid)) = true
  · left
    rw [delete_edge, if_pos h1]
  · rcases hf : find_edge es eid with _ | e
    · left
      rw [delete_edge, if_neg h1, hf]
      simp
    · right
      have hmem : e ∈ es := List.mem_of_find?_eq_some hf
      have hid : e.id = eid := by simpa using List.find?_some hf
      refine ⟨⟨e, hmem, hid⟩, ?_⟩
      rw [delete_edge, if_neg h1, hf]
      simp [append_revoked_id]

theorem AllocInv_delEdge (g : Graph) (st : AllocState) (nid eid : Nat)
    (h : AllocInv g st) :
    AllocInv (delete_edge_from_node g nid eid st).1
      (delete_edge_from_node g nid eid st).2 := by
  rcases hfind : find_node g nid with _ | n
  · rw [delete_edge_from_node_not_found g nid eid st hfind]
    exact h
  · obtain ⟨A, B, rfl, hid, hA⟩ := find_node_split g nid n hfind
    subst hid
    rw [delete_edge_from_node_eq_of_split A B n eid st hA]
    rcases delete_edge_cases n.edges eid st with hDE | ⟨⟨e, he_mem, he_id⟩, hDE⟩
    · rw [hDE]
      exact h
    · rw [hDE]
      have heid_M : eid ∈ n.edges.map (·.id) := by
        exact he_id ▸ List.mem_map_of_mem (·.id) he_mem
      have hEold := h.edge_nodup
      rw [live_edge_ids_append, live_edge_ids_cons] at hEold
      obtain ⟨hLEA, hMB, hdisj⟩ := List.nodup_append.mp hEold
      obtain ⟨hM, hLEB, hdisj2⟩ := List.nodup_append.mp hMB
      have heid_live : eid ∈ live_edge_ids (A ++ n :: B) := by
        rw [live_edge_ids_append, live_edge_ids_cons]
        exact List.mem_append_right _ (List.mem_append_left _ heid_M)
      have heid_nA : eid ∉ live_edge_ids A := fun hin =>
        hdisj hin (List.mem_append_left _ heid_M)
      have heid_nB : eid ∉ live_edge_ids B := fun hin => hdisj2 heid_M hin
      have hEnew : live_edge_ids
            (A ++ { n with edges := remove_first_edge n.edges eid } :: B)
          = live_edge_ids A
              ++ ((n.edges.map (·.id)).erase eid ++ live_edge_ids B) := by
        rw [live_edge_ids_append, live_edge_ids_cons, remove_first_edge_map_id]
      have hEsub : ∀ i ∈ live_edge_ids
            (A ++ { n with edges := remove_first_edge n.edges eid } :: B),
          i ∈ live_edge_ids (A ++ n :: B) := by
        intro i hi
        rw [hEnew] at hi
        rw [live_edge_ids_append, live_edge_ids_cons]
        rcases List.mem_append.mp hi with hi | hi
        · exact List.mem_append_left _ hi
        · rcases List.mem_append.mp hi with hi | hi
          · exact List.mem_append_right _
              (List.mem_append_left _ (List.mem_of_mem_erase hi))
          · exact List.mem_append_right _ (List.mem_append_right _ hi)
      have hNsame : live_node_ids
            (A ++ { n with edges := remove_first_edge n.edges eid } :: B)
          = live_node_ids (A ++ n :: B) := by
        simp [live_node_ids]
      have hi_ne : ∀ i ∈ live_edge_ids
            (A ++ { n with edges := remove_first_edge n.edges eid } :: B),
          i ≠ eid := by
        intro i hi
        rw [hEnew] at hi
        rcases List.mem_append.mp hi with hi | hi
        · intro heq; exact heid_nA (heq ▸ hi)
        · rcases List.mem_append.mp hi with hi | hi
          · exact ((hM.mem_erase_iff).mp hi).1
          · intro heq; exact heid_nB (heq ▸ hi)
      refine ⟨?_, ?_, ?_, ?_, ?_, ?_, ?_, ?_, ?_, ?_⟩
      · rw [hNsame]; exact h.node_nodup
      · intro i hi
        rw [hNsame] at hi
        exact h.node_lt i hi
      · intro i hi
        rw [hNsame] at hi
        exact h.node_fresh i hi
      · exact h.node_pool_nodup
      · exact h.node_pool_lt
      · rw [hEnew]
        rw [List.nodup_append]
        refine ⟨hLEA, ?_, ?_⟩
        · rw [List.nodup_append]
          refine ⟨hM.erase eid, hLEB, ?_⟩
          intro x hx
          exact hdisj2 (List.mem_of_mem_erase hx)
        · intro x hx hmem
          rcases List.mem_append.mp hmem with hmem | hmem
          · exact hdisj hx (List.mem_append_left _ (List.mem_of_mem_erase hmem))
          · exact hdisj hx (List.mem_append_right _ hmem)
      · intro i hi
        exact h.edge_lt i (hEsub i hi)
      · intro i hi
        intro hmem
        rcases List.mem_append.mp hmem with hmem | hmem
        · exact h.edge_fresh i (hEsub i hi) hmem
        · rw [List.mem_singleton] at hmem
          exact hi_ne i hi hmem
      · rw [List.nodup_append]
        refine ⟨h.edge_pool_nodup, List.nodup_singleton _, ?_⟩
        intro x hx hmem
        rw [List.mem_singleton] at hmem
        subst hmem
        exact h.edge_fresh x heid_live hx
      · intro x hx
        rcases List.mem_append.mp hx with hx | hx
        · exact h.edge_pool_lt x hx
        · rw [List.mem_singleton] at hx
          subst hx
          exact h.edge_lt x heid_live

theorem AllocInv_delGraph (g : Graph) (st : AllocState) (h : AllocInv g st) :
    AllocInv (delete_graph g st).1 (delete_graph g st).2 := by
  rw [delete_graph_spec]
  have hE : (g.map (fun n => n.edges.map (·.id))).flatten = live_edge_ids g := rfl
  have hN : g.map (·.id) = live_node_ids g := rfl
  refine ⟨?_, ?_, ?_, ?_, ?_, ?_, ?_, ?_, ?_, ?_⟩
  · exact List.nodup_nil
  · intro i hi; simp [live_node_ids] at hi
  · intro i hi; simp [live_node_ids] at hi
  · rw [List.nodup_append, hN]
    refine ⟨h.node_pool_nodup, h.node_nodup, ?_⟩
    intro x hx hmem
    exact h.node_fresh x hmem hx
  · intro x hx
    rw [hN] at hx
    rcases List.mem_append.mp hx with hx | hx
    · exact h.node_pool_lt x hx
    · exact h.node_lt x hx
  · exact List.nodup_nil
  · intro i hi; simp [live_edge_ids] at hi
  · intro i hi; simp [live_edge_ids] at hi
  · rw [List.nodup_append, hE]
    refine ⟨h.edge_pool_nodup, h.edge_nodup, ?_⟩
    intro x hx hmem
    exact h.edge_fresh x hmem hx
  · intro x hx
    rw [hE] at hx
    rcases List.mem_append.mp hx with hx | hx
    · exact h.edge_pool_lt x hx
    · exact h.edge_lt x hx

theorem AllocInv_stepOp (s : Graph × AllocState) (op : GraphOp)
    (h : AllocInv s.1 s.2) : AllocInv (stepOp s op).1 (stepOp s op).2 := by
  rcases s with ⟨g, st⟩
  cases op with
  | newNode l => exact AllocInv_newNode g st l h
  | newEdge nid w lbl dst => exact AllocInv_newEdge g st nid w lbl dst h
  | delNode id => exact AllocInv_delNode g st id h
  | delEdge nid eid => exact AllocInv_delEdge g st nid eid h
  | delGraph => exact AllocInv_delGraph g st h

theorem AllocInv_foldl (ops : List GraphOp) (s : Graph × AllocState)
    (h : AllocInv s.1 s.2) :
    AllocInv (ops.foldl stepOp s).1 (ops.foldl stepOp s).2 := by
  induction ops generalizing s with
  | nil => exact h
  | cons op t ih => exact ih _ (AllocInv_stepOp s op h)

theorem AllocInv_init : AllocInv [] initAllocState := by
  refine ⟨?_, ?_, ?_, ?_, ?_, ?_, ?_, ?_, ?_, ?_⟩ <;>
    simp [live_node_ids, live_edge_ids, initAllocState]

/-- C8: after any sequence of allocator-backed node/edge creations and deletions
(`create_new_node`, `create_new_edge`, `delete_node`, `delete_edge` via
`delete_edge_from_node`, `delete_graph`) starting from the empty graph and the
program-start allocator, no two live nodes share a node id, no two live edges
share an edge id, and no identifier sitting in a recycle pool is held by a live
entity — so a recycled identifier is never held by two live entities at once. -/
theorem claim_C8_identifier_uniqueness (ops : List GraphOp) :
    (live_node_ids (runOps ops).1).Nodup ∧
    (live_edge_ids (runOps ops).1).Nodup ∧
    (∀ i ∈ live_node_ids (runOps ops).1, i ∉ (runOps ops).2.revoked_node_ids) ∧
    (∀ i ∈ live_edge_ids (runOps ops).1, i ∉ (runOps ops).2.revoked_edge_ids) := by
  have h := AllocInv_foldl ops ([], initAllocState) AllocInv_init
  exact ⟨h.node_nodup, h.edge_nodup, h.node_fresh, h.edge_fresh⟩

/-! ## Claim C5: complement involution on the adjacency matrix -/

/-- Bookkeeping hypothesis for the edge-id namespace: the tracked ids (the edge ids
currently reachable from graphs and templates) are pairwise distinct, below the
counter and outside the recycle pool, and the pool itself is duplicate-free and
below the counter.  This holds in every state reachable through the library's own
constructors and destructors (compare `AllocInv`). -/
def EdgeIdsOK (st : AllocState) (ids : List Nat) : Prop :=
  ids.Nodup ∧ (∀ i ∈ ids, i < st.global_edge_id) ∧
  (∀ i ∈ ids, i ∉ st.revoked_edge_ids) ∧
  st.revoked_edge_ids.Nodup ∧
  (∀ x ∈ st.revoked_edge_ids, x < st.global_edge_id)

theorem EdgeIdsOK_perm (st : AllocState) {ids ids' : List Nat}
    (hp : ids.Perm ids') (h : EdgeIdsOK st ids) : EdgeIdsOK st ids' := by
  obtain ⟨h1, h2, h3, h4, h5⟩ := h
  exact ⟨hp.nodup_iff.mp h1,
    fun i hi => h2 i (hp.mem_iff.mpr hi),
    fun i hi => h3 i (hp.mem_iff.mpr hi), h4, h5⟩

theorem EdgeIdsOK_revoke_middle (st : AllocState) (x m y : List Nat)
    (h : EdgeIdsOK st (x ++ (m ++ y))) :
    EdgeIdsOK { st with revoked_edge_ids := st.revoked_edge_ids ++ m } (x ++ y) := by
  obtain ⟨h1, h2, h3, h4, h5⟩ := h
  obtain ⟨hx, hmy, hdisj⟩ := List.nodup_append.mp h1
  obtain ⟨hm, hy, hdisj2⟩ := List.nodup_append.mp hmy
  refine ⟨?_, ?_, ?_, ?_, ?_⟩
  · rw [List.nodup_append]
    exact ⟨hx, hy, fun a ha ha' => hdisj ha (List.mem_append_right _ ha')⟩
  · intro i hi
    rcases List.mem_append.mp hi with hi | hi
    · exact h2 i (List.mem_append_left _ hi)
    · exact h2 i (List.mem_append_right _ (List.mem_append_right _ hi))
  · intro i hi hmem
    rcases List.mem_append.mp hmem with hmem | hmem
    · rcases List.mem_append.mp hi with hi | hi
      · exact h3 i (List.mem_append_left _ hi) hmem
      · exact h3 i (List.mem_append_right _ (List.mem_append_right _ hi)) hmem
    · rcases List.mem_append.mp hi with hi | hi
      · exact hdisj hi (List.mem_append_left _ hmem)
      · exact hdisj2 hmem hi
  · rw [List.nodup_append]
    refine ⟨h4, hm, ?_⟩
    intro a ha ha'
    exact h3 a (List.mem_append_right _ (List.mem_append_left _ ha')) ha
  · intro a ha
    rcases List.mem_append.mp ha with ha | ha
    · exact h5 a ha
    · exact h2 a (List.mem_append_right _ (List.mem_append_left _ ha))

theorem delete_edge_list_spec (es : List graph_edge) (st : AllocState) :
    delete_edge_list es st
      = ([], { st with revoked_edge_ids := st.revoked_edge_ids ++ es.map (·.id) }) := by
  induction es generalizing st with
  | nil => simp [delete_edge_list]
  | cons e t ih => simp [delete_edge_list, append_revoked_id, ih]

theorem create_new_edge_fields (w : Int) (lbl : String) (a b : Nat)
    (st : AllocState) :
    (create_new_edge w lbl a b st).1.src = a ∧
    (create_new_edge w lbl a b st).1.dst = b ∧
    (create_new_edge w lbl a b st).1.weight = w ∧
    (create_new_edge w lbl a b st).1.label = lbl := by
  rcases hp : st.revoked_edge_ids with _ | ⟨x, t⟩ <;>
    simp [create_new_edge, hp, set_edge_id]

theorem EdgeIdsOK_create (w : Int) (lbl : String) (a b : Nat) (st : AllocState)
    (ids : List Nat) (h : EdgeIdsOK st ids) :
    EdgeIdsOK (create_new_edge w lbl a b st).2
      (ids ++ [(create_new_edge w lbl a b st).1.id]) := by
  obtain ⟨h1, h2, h3, h4, h5⟩ := h
  obtain ⟨a1, a2, a3, a4, a5, a6, a7, _, _⟩ :=
    create_new_edge_alloc w lbl a b st ids h2 h3 h4 h5
  refine ⟨?_, ?_, ?_, a6, a7⟩
  · rw [List.nodup_append]
    exact ⟨h1, List.nodup_singleton _, fun i hi hm => a1 ((List.mem_singleton.mp hm) ▸ hi)⟩
  · intro i hi
    rcases List.mem_append.mp hi with hi | hi
    · exact a2 i hi
    · exact (List.mem_singleton.mp hi) ▸ a3
  · intro i hi
    rcases List.mem_append.mp hi with hi | hi
    · exact a4 i hi
    · exact (List.mem_singleton.mp hi) ▸ a5

theorem complement_filter_foldl_no_match (e : graph_edge)
    (visit : List graph_edge) (acc : List graph_edge × AllocState)
    (h : ∀ c ∈ visit, (e.src == c.src && e.dst == c.dst) = false) :
    visit.foldl
      (fun a c =>
        if e.src == c.src && e.dst == c.dst then delete_edge a.1 c.id a.2 else a)
      acc = acc := by
  induction visit generalizing acc with
  | nil => rfl
  | cons c t ih =>
      rw [List.foldl_cons]
      rw [h c (List.mem_cons_self c t)]
      simp only [Bool.false_eq_true, if_false]
      exact ih acc (fun d hd => h d (List.mem_cons_of_mem c hd))

theorem exists_first_match (e : graph_edge) (tpl : List graph_edge)
    (hex : ∃ c ∈ tpl, (e.src == c.src && e.dst == c.dst) = true) :
    ∃ X c0 Y, tpl = X ++ c0 :: Y ∧ (e.src == c0.src && e.dst == c0.dst) = true ∧
      ∀ c ∈ X, (e.src == c.src && e.dst == c.dst) = false := by
  induction tpl with
  | nil => simp at hex
  | cons c t ih =>
      by_cases hc : (e.src == c.src && e.dst == c.dst) = true
      · exact ⟨[], c, t, rfl, hc, by simp⟩
      · have hex' : ∃ x ∈ t, (e.src == x.src && e.dst == x.dst) = true := by
          rcases hex with ⟨x, hx, hpx⟩
          rcases List.mem_cons.mp hx with rfl | hx
          · exact absurd hpx hc
          · exact ⟨x, hx, hpx⟩
        obtain ⟨X, c0, Y, ht, hc0, hX⟩ := ih hex'
        refine ⟨c :: X, c0, Y, by simp [ht], hc0, ?_⟩
        intro d hd
        rcases List.mem_cons.mp hd with rfl | hd
        · simpa using hc
        · exact hX d hd

theorem remove_first_edge_split (X Y : List graph_edge) (c0 : graph_edge)
    (hX : ∀ c ∈ X, (c.id == c0.id) = false) :
    remove_first_edge (X ++ c0 :: Y) c0.id = X ++ Y := by
  induction X with
  | nil => simp [remove_first_edge]
  | cons a t ih =>
      have ha := hX a (List.mem_cons_self a t)
      simp only [List.cons_append, remove_first_edge, ha, Bool.false_eq_true, if_false,
        List.append_eq]
      rw [ih (fun c hc => hX c (List.mem_cons_of_mem a hc))]

theorem delete_edge_found_spec (c0 : graph_edge) (st : AllocState)
    (X Y : List graph_edge)
    (hids : ∀ c ∈ X, (c.id == c0.id) = false)
    (hlt : c0.id < st.global_edge_id)
    (hpool : c0.id ∉ st.revoked_edge_ids) :
    delete_edge (X ++ c0 :: Y) c0.id st
      = (X ++ Y, { st with revoked_edge_ids := st.revoked_edge_ids ++ [c0.id] }) := by
  have hne : (X ++ c0 :: Y).isEmpty = false := by
    cases X <;> simp
  have hex : exists_edge_from_id st c0.id = true := by
    rw [exists_edge_from_id, if_pos (Nat.le_of_lt hlt), find_revoked_id]
    simpa [List.elem_iff] using hpool
  have hfind : (find_edge (X ++ c0 :: Y) c0.id).isSome := by
    rcases hf : find_edge (X ++ c0 :: Y) c0.id with _ | e
    · rw [find_edge, List.find?_eq_none] at hf
      exact absurd (beq_self_eq_true c0.id)
        (by simpa using hf c0 (List.mem_append_right _ (List.mem_cons_self _ _)))
    · simp
  rw [delete_edge, if_neg (by simp [hne, hex]), if_pos hfind,
    remove_first_edge_split X Y c0 hids]
  simp [append_revoked_id]

theorem complement_filter_step_spec (e : graph_edge) (tpl : List graph_edge)
    (st : AllocState) (base : List Nat)
    (h : EdgeIdsOK st (base ++ tpl.map (·.id)))
    (hpairs : (tpl.map (fun c => (c.src, c.dst))).Nodup) :
    (complement_filter_step e tpl st).1
        = tpl.filter (fun c => !(e.src == c.src && e.dst == c.dst)) ∧
    EdgeIdsOK (complement_filter_step e tpl st).2
        (base ++ (tpl.filter
            (fun c => !(e.src == c.src && e.dst == c.dst))).map (·.id)) := by
  by_cases hexm : ∃ c ∈ tpl, (e.src == c.src && e.dst == c.dst) = true
  · obtain ⟨X, c0, Y, rfl, hc0, hX⟩ := exists_first_match e tpl hexm
    have hYnom : ∀ c ∈ Y, (e.src == c.src && e.dst == c.dst) = false := by
      intro c hc
      by_contra hnc
      rw [Bool.not_eq_false, Bool.and_eq_true] at hnc
      obtain ⟨hb1, hb2⟩ := hnc
      rw [Bool.and_eq_true] at hc0
      obtain ⟨hb1', hb2'⟩ := hc0
      have hpair : (fun c => (c.src, c.dst)) c = (fun c => (c.src, c.dst)) c0 := by
        simp only
        rw [← (beq_iff_eq.mp hb1), ← (beq_iff_eq.mp hb2),
          ← (beq_iff_eq.mp hb1'), ← (beq_iff_eq.mp hb2')]
      have hmem : (fun c => (c.src, c.dst)) c0 ∈ Y.map (fun c => (c.src, c.dst)) :=
        hpair ▸ List.mem_map_of_mem (fun c => (c.src, c.dst)) hc
      rw [List.map_append, List.map_cons] at hpairs
      have hsubnd := hpairs.sublist
        (List.sublist_append_right (X.map (fun c => (c.src, c.dst))) _)
      exact (List.nodup_cons.mp hsubnd).1 hmem
    have hidsnd : ((X ++ c0 :: Y).map (·.id)).Nodup :=
      (List.nodup_append.mp h.1).2.1
    have hXid : ∀ c ∈ X, (c.id == c0.id) = false := by
      intro c hc
      rw [List.map_append, List.map_cons, List.nodup_append] at hidsnd
      obtain ⟨_, _, hdisj⟩ := hidsnd
      rw [beq_eq_false_iff_ne]
      intro heq
      exact hdisj (List.mem_map_of_mem (·.id) hc)
        (by rw [heq]; exact List.mem_cons_self c0.id (Y.map (·.id)))
    have hc0_tracked : c0.id ∈ base ++ (X ++ c0 :: Y).map (·.id) :=
      List.mem_append_right _ (by
        rw [List.map_append, List.map_cons]
        exact List.mem_append_right _ (List.mem_cons_self _ _))
    have hstep : complement_filter_step e (X ++ c0 :: Y) st
        = (X ++ Y, { st with revoked_edge_ids := st.revoked_edge_ids ++ [c0.id] }) := by
      rw [complement_filter_step, List.foldl_append,
        complement_filter_foldl_no_match e X _ hX, List.foldl_cons, hc0]
      simp only [if_true]
      rw [delete_edge_found_spec c0 st X Y hXid
          (h.2.1 c0.id hc0_tracked) (h.2.2.1 c0.id hc0_tracked)]
      exact complement_filter_foldl_no_match e Y _ hYnom
    have hfilter : (X ++ c0 :: Y).filter
          (fun c => !(e.src == c.src && e.dst == c.dst)) = X ++ Y := by
      rw [List.filter_append, List.filter_cons]
      rw [hc0]
      simp only [Bool.not_true, Bool.false_eq_true, if_false]
      rw [List.filter_eq_self.mpr (fun c hc => by rw [hX c hc]; rfl),
        List.filter_eq_self.mpr (fun c hc => by rw [hYnom c hc]; rfl)]
    refine ⟨by rw [hstep, hfilter], ?_⟩
    rw [hstep, hfilter]
    have h' : EdgeIdsOK st
        ((base ++ X.map (·.id)) ++ ([c0.id] ++ Y.map (·.id))) := by
      have heq : base ++ (X ++ c0 :: Y).map (·.id)
          = (base ++ X.map (·.id)) ++ ([c0.id] ++ Y.map (·.id)) := by
        rw [List.map_append, List.map_cons]
        simp [List.append_assoc]
      exact heq ▸ h
    have hres := EdgeIdsOK_revoke_middle st (base ++ X.map (·.id)) [c0.id]
      (Y.map (·.id)) h'
    have heq2 : (base ++ X.map (·.id)) ++ Y.map (·.id)
        = base ++ (X ++ Y).map (·.id) := by
      rw [List.map_append]
      simp [List.append_assoc]
    exact heq2 ▸ hres
  · have hno : ∀ c ∈ tpl, (e.src == c.src && e.dst == c.dst) = false := by
      intro c hc
      rw [← Bool.not_eq_true]
      exact fun hp => hexm ⟨c, hc, hp⟩
    have hstep : complement_filter_step e tpl st = (tpl, st) := by
      rw [complement_filter_step]
      exact complement_filter_foldl_no_match e tpl _ hno
    have hfilter : tpl.filter (fun c => !(e.src == c.src && e.dst == c.dst)) = tpl :=
      List.filter_eq_self.mpr (fun c hc => by rw [hno c hc]; rfl)
    rw [hstep, hfilter]
    exact ⟨rfl, h⟩

theorem complement_template_fold (node_ids : List Nat) (src : Nat)
    (tpl0 : List graph_edge) (st0 : AllocState) (base : List Nat)
    (h : EdgeIdsOK st0 (base ++ tpl0.map (·.id))) :
    ∃ tplN stN,
      node_ids.foldl
          (fun acc dst =>
            let (e, st') := create_new_edge 0 "complemented_edge" src dst acc.2
            (append_edge acc.1 e, st'))
          (tpl0, st0)
        = (tpl0 ++ tplN, stN) ∧
      tplN.map (fun c => (c.src, c.dst)) = node_ids.map (fun d => (src, d)) ∧
      EdgeIdsOK stN (base ++ (tpl0 ++ tplN).map (·.id)) := by
  induction node_ids generalizing tpl0 st0 with
  | nil =>
      refine ⟨[], st0, by simp, by simp, ?_⟩
      simpa using h
  | cons d ds ih =>
      rw [List.foldl_cons]
      have h1 : EdgeIdsOK (create_new_edge 0 "complemented_edge" src d st0).2
          (base ++ (append_edge tpl0
            (create_new_edge 0 "complemented_edge" src d st0).1).map (·.id)) := by
        have := EdgeIdsOK_create 0 "complemented_edge" src d st0
          (base ++ tpl0.map (·.id)) h
        have heq : (base ++ tpl0.map (·.id))
              ++ [(create_new_edge 0 "complemented_edge" src d st0).1.id]
            = base ++ (append_edge tpl0
                (create_new_edge 0 "complemented_edge" src d st0).1).map (·.id) := by
          simp [append_edge, List.append_assoc]
        exact heq ▸ this
      obtain ⟨tplN', stN, hfold, hpairs, hOK⟩ := ih _ _ h1
      refine ⟨(create_new_edge 0 "complemented_edge" src d st0).1 :: tplN', stN, ?_, ?_, ?_⟩
      · exact hfold.trans (by simp [append_edge, List.append_assoc])
      · obtain ⟨hsrc, hdst, _, _⟩ := create_new_edge_fields 0 "complemented_edge" src d st0
        simp [hpairs, hsrc, hdst]
      · have heq : base ++ (append_edge tpl0
              (create_new_edge 0 "complemented_edge" src d st0).1 ++ tplN').map (·.id)
            = base ++ (tpl0
                ++ (create_new_edge 0 "complemented_edge" src d st0).1 :: tplN').map (·.id) := by
          simp [append_edge, List.append_assoc]
        exact heq ▸ hOK

theorem complement_filter_fold_spec (es : List graph_edge) (tpl : List graph_edge)
    (st : AllocState) (base : List Nat)
    (h : EdgeIdsOK st (base ++ tpl.map (·.id)))
    (hpairs : (tpl.map (fun c => (c.src, c.dst))).Nodup) :
    (es.foldl (fun acc e => complement_filter_step e acc.1 acc.2) (tpl, st)).1
        = tpl.filter
            (fun c => !(es.any (fun e => e.src == c.src && e.dst == c.dst))) ∧
    EdgeIdsOK (es.foldl (fun acc e => complement_filter_step e acc.1 acc.2) (tpl, st)).2
        (base ++ (tpl.filter
            (fun c => !(es.any (fun e => e.src == c.src && e.dst == c.dst)))).map (·.id)) := by
  induction es generalizing tpl st with
  | nil =>
      constructor
      · simp
      · simpa using h
  | cons e es' ih =>
      obtain ⟨hs1, hs2⟩ := complement_filter_step_spec e tpl st base h hpairs
      rw [List.foldl_cons]
      have hpairs1 : ((complement_filter_step e tpl st).1.map
          (fun c => (c.src, c.dst))).Nodup := by
        rw [hs1]
        exact hpairs.sublist ((List.filter_sublist tpl).map _)
      have h1 : EdgeIdsOK (complement_filter_step e tpl st).2
          (base ++ (complement_filter_step e tpl st).1.map (·.id)) := by
        rw [hs1]; exact hs2
      rcases hacc : complement_filter_step e tpl st with ⟨tpl1, st1⟩
      rw [hacc] at hs1 h1 hpairs1
      simp only at hs1 h1 hpairs1
      obtain ⟨hr1, hr2⟩ := ih tpl1 st1 h1 hpairs1
      have hff : tpl1.filter
            (fun c => !(es'.any (fun e => e.src == c.src && e.dst == c.dst)))
          = tpl.filter
            (fun c => !((e :: es').any (fun e => e.src == c.src && e.dst == c.dst))) := by
        rw [hs1, List.filter_filter]
        apply List.filter_congr
        intro c _
        simp only [List.any_cons, Bool.not_or]
        rw [Bool.and_comm]
      constructor
      · rw [hr1, hff]
      · rw [← hff]
        exact hr2

theorem map_pair_filter_any (l : List graph_edge) (es : List graph_edge) :
    (l.filter (fun c => !(es.any (fun e => e.src == c.src && e.dst == c.dst)))).map
        (fun c => (c.src, c.dst))
      = (l.map (fun c => (c.src, c.dst))).filter
          (fun pr => !(es.any (fun e => e.src == pr.1 && e.dst == pr.2))) := by
  induction l with
  | nil => rfl
  | cons c t ih =>
      by_cases hc : (es.any (fun e => e.src == c.src && e.dst == c.dst)) = true
      · simp [List.filter_cons, hc, ih]
      · rw [Bool.not_eq_true] at hc
        simp [List.filter_cons, hc, ih]

theorem ids_pairs_filter (ids : List Nat) (s : Nat) (es : List graph_edge) :
    (ids.map (fun d => (s, d))).filter
        (fun pr => !(es.any (fun e => e.src == pr.1 && e.dst == pr.2)))
      = (ids.filter (fun d =>
          !(es.any (fun e => e.src == s && e.dst == d)))).map (fun d => (s, d)) := by
  induction ids with
  | nil => rfl
  | cons d t ih =>
      by_cases hd : (es.any (fun e => e.src == s && e.dst == d)) = true
      · simp [List.filter_cons, hd, ih]
      · rw [Bool.not_eq_true] at hd
        simp [List.filter_cons, hd, ih]

theorem complement_node_spec (node_ids : List Nat) (n : graph_node)
    (st : AllocState) (base : List Nat)
    (h : EdgeIdsOK st (base ++ n.edges.map (·.id)))
    (hnd : node_ids.Nodup) :
    (complement_node node_ids n st).1.id = n.id ∧
    (complement_node node_ids n st).1.label = n.label ∧
    (complement_node node_ids n st).1.edges.map (fun c => (c.src, c.dst))
      = (node_ids.filter (fun d =>
          !(n.edges.any (fun e => e.src == n.id && e.dst == d)))).map
            (fun d => (n.id, d)) ∧
    EdgeIdsOK (complement_node node_ids n st).2
      (base ++ (complement_node node_ids n st).1.edges.map (·.id)) := by
  have h0 : EdgeIdsOK st ((base ++ n.edges.map (·.id))
      ++ ([] : List graph_edge).map (·.id)) := by simpa using h
  obtain ⟨tpl, st1, htpl, hpairs, hOK1⟩ :=
    complement_template_fold node_ids n.id [] st (base ++ n.edges.map (·.id)) h0
  have htpl' : complement_template node_ids n.id st = (tpl, st1) := by
    rw [complement_template, htpl]
    simp
  have hpairsN : (tpl.map (fun c => (c.src, c.dst))).Nodup := by
    rw [hpairs]
    exact hnd.map (fun a b hab => by simpa using hab)
  have hOK1' : EdgeIdsOK st1 ((base ++ n.edges.map (·.id)) ++ tpl.map (·.id)) := by
    simpa using hOK1
  obtain ⟨hf1, hf2⟩ := complement_filter_fold_spec n.edges tpl st1
    (base ++ n.edges.map (·.id)) hOK1' hpairsN
  rcases hfold : n.edges.foldl
      (fun acc e => complement_filter_step e acc.1 acc.2) (tpl, st1) with ⟨tpl2, st2⟩
  rw [hfold] at hf1 hf2
  simp only at hf1 hf2
  have hnode : complement_node node_ids n st
      = ({ n with edges := tpl2 },
         { st2 with revoked_edge_ids := st2.revoked_edge_ids ++ n.edges.map (·.id) }) := by
    rw [complement_node, htpl']
    simp only
    rw [hfold]
    simp only
    rw [delete_edge_list_spec]
  rw [hnode]
  simp only
  refine ⟨by trivial, by trivial, ?_, ?_⟩
  · rw [hf1, map_pair_filter_any, hpairs, ids_pairs_filter]
  · have hOK2 : EdgeIdsOK st2
        (base ++ (n.edges.map (·.id) ++ tpl2.map (·.id))) := by
      rw [hf1]
      have := hf2
      rw [← List.append_assoc]
      exact this
    have := EdgeIdsOK_revoke_middle st2 base (n.edges.map (·.id))
      (tpl2.map (·.id)) hOK2
    exact this

theorem complement_graph_fold (node_ids : List Nat) (hnd : node_ids.Nodup)
    (rest : Graph) (acc : Graph) (st : AllocState)
    (h : EdgeIdsOK st (live_edge_ids acc ++ live_edge_ids rest)) :
    ∃ newpart stN,
      rest.foldl
          (fun a n =>
            let (n', st') := complement_node node_ids n a.2
            (a.1 ++ [n'], st'))
          (acc, st)
        = (acc ++ newpart, stN) ∧
      List.Forall₂
        (fun n n' => n'.id = n.id ∧ n'.label = n.label ∧
          n'.edges.map (fun c => (c.src, c.dst))
            = (node_ids.filter (fun d =>
                !(n.edges.any (fun e => e.src == n.id && e.dst == d)))).map
                  (fun d => (n.id, d)))
        rest newpart ∧
      EdgeIdsOK stN (live_edge_ids (acc ++ newpart)) := by
  induction rest generalizing acc st with
  | nil =>
      refine ⟨[], st, by simp, List.Forall₂.nil, ?_⟩
      simpa [live_edge_ids_append, live_edge_ids_nil] using h
  | cons n rest' ih =>
      rw [live_edge_ids_cons] at h
      have hperm : List.Perm
          (live_edge_ids acc ++ (n.edges.map (·.id) ++ live_edge_ids rest'))
          ((live_edge_ids acc ++ live_edge_ids rest') ++ n.edges.map (·.id)) := by
        rw [List.append_assoc]
        exact List.Perm.append_left _ List.perm_append_comm
      have hOKn := EdgeIdsOK_perm st hperm h
      obtain ⟨hid, hlabel, hpairs, hOK'⟩ :=
        complement_node_spec node_ids n st (live_edge_ids acc ++ live_edge_ids rest')
          hOKn hnd
      have hperm2 : List.Perm
          ((live_edge_ids acc ++ live_edge_ids rest')
            ++ (complement_node node_ids n st).1.edges.map (·.id))
          (live_edge_ids (acc ++ [(complement_node node_ids n st).1])
            ++ live_edge_ids rest') := by
        rw [live_edge_ids_append, live_edge_ids_cons, live_edge_ids_nil,
          List.append_nil, List.append_assoc, List.append_assoc]
        exact List.Perm.append_left _ List.perm_append_comm
      have hOKnext := EdgeIdsOK_perm _ hperm2 hOK'
      obtain ⟨newpart', stN, hfold, hFa, hOKN⟩ :=
        ih (acc ++ [(complement_node node_ids n st).1])
          (complement_node node_ids n st).2 hOKnext
      refine ⟨(complement_node node_ids n st).1 :: newpart', stN, ?_, ?_, ?_⟩
      · rw [List.foldl_cons]
        exact hfold.trans (by simp [List.append_assoc])
      · exact List.Forall₂.cons ⟨hid, hlabel, hpairs⟩ hFa
      · have heq : live_edge_ids ((acc ++ [(complement_node node_ids n st).1]) ++ newpart')
            = live_edge_ids (acc ++ (complement_node node_ids n st).1 :: newpart') := by
          simp [List.append_assoc]
        exact heq ▸ hOKN

theorem complement_graph_spec (g : Graph) (st : AllocState)
    (hnd : (g.map (·.id)).Nodup)
    (h : EdgeIdsOK st (live_edge_ids g)) :
    ∃ g' stN, complement_graph g st = (g', stN) ∧
      List.Forall₂
        (fun n n' => n'.id = n.id ∧ n'.label = n.label ∧
          n'.edges.map (fun c => (c.src, c.dst))
            = ((g.map (·.id)).filter (fun d =>
                !(n.edges.any (fun e => e.src == n.id && e.dst == d)))).map
                  (fun d => (n.id, d)))
        g g' ∧
      EdgeIdsOK stN (live_edge_ids g') := by
  obtain ⟨newpart, stN, hfold, hFa, hOK⟩ :=
    complement_graph_fold (g.map (·.id)) hnd g [] st
      (by simpa [live_edge_ids_nil] using h)
  refine ⟨newpart, stN, ?_, hFa, by simpa using hOK⟩
  rw [complement_graph]
  exact hfold.trans (by simp)

theorem forall2_map_eq {α β : Type} {R : α → β → Prop} {l : List α} {l' : List β}
    (h : List.Forall₂ R l l') {γ : Type} (f : α → γ) (f' : β → γ)
    (hf : ∀ a b, R a b → f' b = f a) : l'.map f' = l.map f := by
  induction h with
  | nil => rfl
  | cons hab _ ih => simp [ih, hf _ _ hab]

theorem any_and_src (es : List graph_edge) (s v : Nat)
    (hWF : ∀ e ∈ es, e.src = s) :
    es.any (fun e => e.src == s && e.dst == v) = es.any (fun e => e.dst == v) := by
  induction es with
  | nil => rfl
  | cons e t ih =>
      have hs : e.src = s := hWF e (List.mem_cons_self e t)
      simp only [List.any_cons, hs, beq_self_eq_true, Bool.true_and]
      rw [ih (fun d hd => hWF d (List.mem_cons_of_mem e hd))]

theorem any_dst_eq_map (es : List graph_edge) (v : Nat) :
    es.any (fun e => e.dst == v) = (es.map (·.dst)).any (fun d => d == v) := by
  induction es with
  | nil => rfl
  | cons a t ih => simp [List.any_cons, ih]

theorem map_not_not (row : List Bool) :
    (row.map (fun b => !b)).map (fun b => !b) = row := by
  induction row with
  | nil => rfl
  | cons b t ih => simp [ih]

theorem matrix_not_not (m : List (List Bool)) :
    (m.map (fun row => row.map (fun b => !b))).map
        (fun row => row.map (fun b => !b)) = m := by
  induction m with
  | nil => rfl
  | cons r t ih => simp [ih, map_not_not r]

theorem complement_row_eq (g g' : Graph) (n n' : graph_node)
    (hids : g'.map (·.id) = g.map (·.id))
    (hWFn : ∀ e ∈ n.edges, e.src = n.id)
    (hpairs : n'.edges.map (fun c => (c.src, c.dst))
      = ((g.map (·.id)).filter (fun d =>
          !(n.edges.any (fun e => e.src == n.id && e.dst == d)))).map
            (fun d => (n.id, d))) :
    g'.map (fun c => n'.edges.any (fun e => e.dst == c.id))
      = (g.map (fun c => n.edges.any (fun e => e.dst == c.id))).map (fun b => !b) := by
  have hdst : n'.edges.map (·.dst)
      = (g.map (·.id)).filter (fun d =>
          !(n.edges.any (fun e => e.src == n.id && e.dst == d))) := by
    have h1 : n'.edges.map (·.dst)
        = (n'.edges.map (fun c => (c.src, c.dst))).map Prod.snd := by
      rw [List.map_map]
      rfl
    rw [h1, hpairs, List.map_map]
    simp
  have hpoint : ∀ c ∈ g,
      n'.edges.any (fun e => e.dst == c.id)
        = !(n.edges.any (fun e => e.dst == c.id)) := by
    intro c hc
    have hv : c.id ∈ g.map (·.id) := List.mem_map_of_mem (·.id) hc
    have hany : n'.edges.any (fun e => e.dst == c.id)
        = (n'.edges.map (·.dst)).any (fun d => d == c.id) :=
      any_dst_eq_map n'.edges c.id
    rw [hany, hdst]
    have hbool : ∀ a b : Bool, (a = true ↔ b = true) → a = b := by decide
    apply hbool
    constructor
    · intro hx
      obtain ⟨d, hd, hdv⟩ := List.any_eq_true.mp hx
      obtain ⟨hdmem, hkeep⟩ := List.mem_filter.mp hd
      rw [beq_iff_eq] at hdv
      subst hdv
      rw [← any_and_src n.edges n.id c.id hWFn]
      simpa using hkeep
    · intro hx
      apply List.any_eq_true.mpr
      refine ⟨c.id, List.mem_filter.mpr ⟨hv, ?_⟩, by simp⟩
      rw [any_and_src n.edges n.id c.id hWFn]
      simpa using hx
  calc g'.map (fun c => n'.edges.any (fun e => e.dst == c.id))
      = (g'.map (·.id)).map (fun v => n'.edges.any (fun e => e.dst == v)) := by
        rw [List.map_map]
        rfl
    _ = (g.map (·.id)).map (fun v => n'.edges.any (fun e => e.dst == v)) := by
        rw [hids]
    _ = g.map (fun c => n'.edges.any (fun e => e.dst == c.id)) := by
        rw [List.map_map]
        rfl
    _ = g.map (fun c => !(n.edges.any (fun e => e.dst == c.id))) :=
        List.map_congr_left hpoint
    _ = (g.map (fun c => n.edges.any (fun e => e.dst == c.id))).map (fun b => !b) := by
        rw [List.map_map]
        rfl

theorem forall2_mem_right {α β : Type} {R : α → β → Prop} {l : List α}
    {l' : List β} (h : List.Forall₂ R l l') {b : β} (hb : b ∈ l') :
    ∃ a ∈ l, R a b := by
  induction h with
  | nil => cases hb
  | cons hab _ ih =>
      rcases List.mem_cons.mp hb with rfl | hb
      · exact ⟨_, List.mem_cons_self _ _, hab⟩
      · obtain ⟨a, ha, hR⟩ := ih hb
        exact ⟨a, List.mem_cons_of_mem _ ha, hR⟩

theorem forall2_map_eq_mem {α β γ : Type} {R : α → β → Prop} (f : α → γ)
    (f' : β → γ) :
    ∀ {l : List α} {l' : List β}, List.Forall₂ R l l' →
      (∀ a ∈ l, ∀ b ∈ l', R a b → f' b = f a) → l'.map f' = l.map f := by
  intro l l' h
  induction h with
  | nil => intro _; rfl
  | cons hab _ ih =>
      intro hf
      rw [List.map_cons, List.map_cons,
        hf _ (List.mem_cons_self _ _) _ (List.mem_cons_self _ _) hab,
        ih (fun a ha b hb hR =>
          hf a (List.mem_cons_of_mem _ ha) b (List.mem_cons_of_mem _ hb) hR)]

theorem matrix_complement_step (g : Graph) (st : AllocState)
    (hnd : (g.map (·.id)).Nodup)
    (hWF : ∀ n ∈ g, ∀ e ∈ n.edges, e.src = n.id)
    (h : EdgeIdsOK st (live_edge_ids g)) :
    ∃ g' stN, complement_graph g st = (g', stN) ∧
      g'.map (·.id) = g.map (·.id) ∧
      (∀ n' ∈ g', ∀ e ∈ n'.edges, e.src = n'.id) ∧
      EdgeIdsOK stN (live_edge_ids g') ∧
      create_graph_matrix g'
        = (create_graph_matrix g).map (fun row => row.map (fun b => !b)) := by
  obtain ⟨g', stN, heq, hFa, hOK⟩ := complement_graph_spec g st hnd h
  have hids : g'.map (·.id) = g.map (·.id) :=
    forall2_map_eq_mem (·.id) (·.id) hFa (fun a _ b _ hab => hab.1)
  refine ⟨g', stN, heq, hids, ?_, hOK, ?_⟩
  · intro n' hn' e he
    obtain ⟨n, _, hR⟩ := forall2_mem_right hFa hn'
    have hmem : (e.src, e.dst) ∈ n'.edges.map (fun c => (c.src, c.dst)) :=
      List.mem_map_of_mem _ he
    rw [hR.2.2] at hmem
    obtain ⟨d, _, hd⟩ := List.mem_map.mp hmem
    have hsrc : n.id = e.src := (Prod.mk.injEq _ _ _ _).mp hd |>.1
    rw [← hsrc, hR.1]
  · have hrows : g'.map (fun r => g'.map (fun c => r.edges.any (fun e => e.dst == c.id)))
        = g.map (fun r =>
            (g.map (fun c => r.edges.any (fun e => e.dst == c.id))).map (fun b => !b)) :=
      forall2_map_eq_mem _ _ hFa
        (fun n hn n' _ hR => complement_row_eq g g' n n' hids (hWF n hn) hR.2.2)
    have htarget : (create_graph_matrix g).map (fun row => row.map (fun b => !b))
        = g.map (fun r =>
            (g.map (fun c => r.edges.any (fun e => e.dst == c.id))).map (fun b => !b)) := by
      rw [create_graph_matrix, List.map_map]
      rfl
    rw [create_graph_matrix, htarget]
    exact hrows

/-- C5: for a graph with pairwise-distinct node ids, every edge attached to its
source node, no self-loops and no parallel edges, and an allocator state whose
edge-id bookkeeping is sound, applying `complement_graph` twice reproduces the
original adjacency matrix as computed by `create_graph_matrix` over the same node
order.  (The template built by the complement covers *every* ordered pair,
including the diagonal, so one complement negates the full matrix entrywise and
two complements restore it; labels and weights of the edges differ, since the
complement assigns the fixed defaults.) -/
theorem claim_C5_complement_involution (g : Graph) (st : AllocState)
    (hnd : (g.map (·.id)).Nodup)
    (hWF : ∀ n ∈ g, ∀ e ∈ n.edges, e.src = n.id)
    (hOK : EdgeIdsOK st (live_edge_ids g))
    (_hsimple : ∀ n ∈ g, ∀ e ∈ n.edges, e.dst ≠ n.id)
    (_hnopar : ∀ n ∈ g, (n.edges.map (·.dst)).Nodup) :
    create_graph_matrix
        (complement_graph (complement_graph g st).1 (complement_graph g st).2).1
      = create_graph_matrix g := by
  obtain ⟨g1, st1, heq1, hids1, hWF1, hOK1, hmat1⟩ :=
    matrix_complement_step g st hnd hWF hOK
  have hnd1 : (g1.map (·.id)).Nodup := by rw [hids1]; exact hnd
  obtain ⟨g2, st2, heq2, hids2, hWF2, hOK2, hmat2⟩ :=
    matrix_complement_step g1 st1 hnd1 hWF1 hOK1
  rw [heq1]
  simp only
  rw [heq2]
  simp only
  rw [hmat2, hmat1]
  exact matrix_not_not _

theorem claim_C5_complement_involution_witness :
    create_graph_matrix
        (complement_graph
          (complement_graph [⟨1, "a", [⟨1, 0, "e", 1, 2⟩]⟩, ⟨2, "b", []⟩]
            ⟨3, 2, [], []⟩).1
          (complement_graph [⟨1, "a", [⟨1, 0, "e", 1, 2⟩]⟩, ⟨2, "b", []⟩]
            ⟨3, 2, [], []⟩).2).1
      = create_graph_matrix [⟨1, "a", [⟨1, 0, "e", 1, 2⟩]⟩, ⟨2, "b", []⟩] :=
  claim_C5_complement_involution [⟨1, "a", [⟨1, 0, "e", 1, 2⟩]⟩, ⟨2, "b", []⟩]
    ⟨3, 2, [], []⟩ (by decide) (by decide)
    (by refine ⟨by decide, ?_, ?_, by decide, ?_⟩ <;> decide)
    (by decide) (by decide)
